import Mathlib

/-!
# LoRaMesher: routing table, HELLO codec and duty-cycle gate

A shallow embedding of `src/loramesher.cpp`.  Machine integers are natural
numbers (or integers for `int`), reduced modulo the width of the C type at the
places where the source stores them in a narrower type.  The header
`loramesher.h` is not part of the sources: the table capacity `RTMAXSIZE` is
the length of the list that models the array `routingTable`, and the sizes and
packet-type constants are taken from the wire format of the specification.
-/

set_option maxRecDepth 100000

namespace LoraMesher

/-- Modelled from the spec: `sizeof(LoraMesher::networkNode)`, declared in the
missing header; the wire format packs a record as a 2-byte address followed by
a 1-byte metric. -/
def sizeofNetworkNode : Nat := 3

/-- Modelled from the spec: `sizeof(LoraMesher::packet)`, declared in the
missing header; the frame header is destination (2), source (2), type (1),
payloadSize (1), followed by the flexible payload array. -/
def sizeofPacket : Nat := 6

/-- Modelled from the spec: the packet type constant `HELLO_P` of the missing
header (wire format: 1 = HELLO). -/
def HELLO_P : Nat := 1

/-- Modelled from the spec: the packet type constant `DATA_P` of the missing
header (wire format: 2 = DATA). -/
def DATA_P : Nat := 2

/-- Width of `size_t` and `unsigned long` on the target (32 bits). -/
def WORD : Nat := 2 ^ 32

/-- The struct `networkNode`: a 16-bit address and an 8-bit metric. -/
structure networkNode where
  address : Nat
  metric : Nat
deriving DecidableEq, Repr

/-- The struct `routableNode`: one slot of the array `routingTable`. -/
structure routableNode where
  networkNode : networkNode
  lastSeqNo : Int
  timeout : Nat
  via : Nat
deriving DecidableEq, Repr

/-- The struct `packet`: the header fields and the bytes of the flexible array
member `payload` (the bytes that the buffer really holds after the header). -/
structure packet where
  dst : Nat
  src : Nat
  type : Nat
  payloadSize : Nat
  payload : List Nat
deriving DecidableEq, Repr

/-- The values of the member `metricType`. -/
inductive MetricType where
  | HOPCOUNT
  | RSSISUM
deriving DecidableEq, Repr

/-- The calls made on the transceiver object `radio`, in program order. -/
inductive RadioOp where
  | clearDio0Action
  | setDio0Action
  | transmit (p : packet) (length : Nat)
  | startReceive
  | getPacketLength
  | getRSSI
  | getSNR
  | readData
deriving DecidableEq, Repr

end LoraMesher

/-- The data members of the class `LoraMesher` that the modelled functions read
or write.  `routingTable` is an array of `RTMAXSIZE` slots; `radio` records the
calls made on the transceiver, the most recent last. -/
structure LoraMesher where
  dutyCycleEnd : Nat
  lastSendTime : Nat
  routeTimeout : Nat
  metricType : LoraMesher.MetricType
  broadcastAddress : Nat
  helloCounter : Int
  receivedPackets : Int
  dataCounter : Int
  localAddress : Nat
  routingTable : List LoraMesher.routableNode
  radio : List LoraMesher.RadioOp
deriving DecidableEq, Repr

namespace LoraMesher

/-- The capacity `RTMAXSIZE` of the array `routingTable`. -/
def RTMAXSIZE (s : LoraMesher) : Nat := s.routingTable.length

/-- A slot as the array holds it before anything is stored (all members 0). -/
def emptySlot : routableNode := ⟨⟨0, 0⟩, 0, 0, 0⟩

/-- The object after the member assignments of the constructor, for a table of
`cap` slots and the local address computed by `initializeLocalAddress`. -/
def construct (cap localAddress : Nat) : LoraMesher where
  dutyCycleEnd := 0
  lastSendTime := 0
  routeTimeout := 10000000
  metricType := MetricType.HOPCOUNT
  broadcastAddress := 0xFFFF
  helloCounter := 0
  receivedPackets := 0
  dataCounter := 0
  localAddress := localAddress
  routingTable := List.replicate cap emptySlot
  radio := []

/-- The loop of `routingTableSize`: the number of slots with a non-zero address. -/
def countOccupied : List routableNode → Nat
  | [] => 0
  | e :: rest =>
    if e.networkNode.address ≠ 0 then countOccupied rest + 1 else countOccupied rest

/-- The function `LoraMesher::routingTableSize`. -/
def routingTableSize (s : LoraMesher) : Nat := countOccupied s.routingTable

/-- The loop of `AddNodeToRoutingTable`: the first slot whose address is 0
receives the new members, and the loop stops there. -/
def addSlot (fresh : routableNode) : List routableNode → List routableNode
  | [] => []
  | e :: rest =>
    if e.networkNode.address = 0 then fresh :: rest else e :: addSlot fresh rest

/-- The function `LoraMesher::AddNodeToRoutingTable`; `now` is the value read
from `micros()`, an `unsigned long`, and the sum is kept in 32 bits. -/
def AddNodeToRoutingTable (s : LoraMesher) (now : Nat) (node : networkNode) (via : Nat)
    (helloID : Int) : LoraMesher :=
  { s with routingTable :=
      addSlot ⟨node, helloID, (now + s.routeTimeout) % WORD, via⟩ s.routingTable }

/-- The search loop of `ProcessRoute` over the slots `0 .. n-1`, where `n` is
`routingTableSize()` (the table is not written before the `break`, so the bound
is the same at every iteration).  Returns `knownAddr` and the table. -/
def scanSlots (node : networkNode) (via : Nat) :
    Nat → List routableNode → Bool × List routableNode
  | 0, rt => (false, rt)
  | _ + 1, [] => (false, [])
  | n + 1, e :: rest =>
    if e.networkNode.address ≠ 0 ∧ node.address = e.networkNode.address then
      (true,
        (if node.metric < e.networkNode.metric then
          { e with networkNode := { e.networkNode with metric := node.metric }, via := via }
         else e) :: rest)
    else
      ((scanSlots node via n rest).1, e :: (scanSlots node via n rest).2)

/-- The function `LoraMesher::ProcessRoute`; `now` is the value `micros()`
returns if the call reaches `AddNodeToRoutingTable`. -/
def ProcessRoute (s : LoraMesher) (now : Nat) (via : Nat) (node : networkNode)
    (helloseqnum rssi snr : Int) : LoraMesher :=
  match s.metricType with
  | MetricType.HOPCOUNT =>
    if node.address ≠ s.localAddress then
      let r := scanSlots node via (routingTableSize s) s.routingTable
      let s1 := { s with routingTable := r.2 }
      if r.1 = false then AddNodeToRoutingTable s1 now node via helloseqnum else s1
    else s
  | MetricType.RSSISUM => s

/-- A call of `ProcessRoute`: its arguments and the clock reading it would use. -/
structure RouteCall where
  now : Nat
  via : Nat
  node : networkNode
  helloseqnum : Int
  rssi : Int
  snr : Int
deriving DecidableEq, Repr

/-- A finite sequence of `ProcessRoute` calls, executed in order. -/
def runCalls (s : LoraMesher) : List RouteCall → LoraMesher
  | [] => s
  | c :: rest =>
    runCalls (ProcessRoute s c.now c.via c.node c.helloseqnum c.rssi c.snr) rest

/-- Node 0x0A with a table of four slots, as constructed. -/
def nodeA : LoraMesher := construct 4 0x0A

/-- The `ProcessRoute` calls of the scenario at node 0x0A: a HELLO from 0x0B
with an empty snapshot, then a HELLO from 0x0B that advertises 0x0C with wire
metric 1 and the receiver itself with wire metric 1. -/
def sampleCalls : List RouteCall :=
  [⟨7, 0x0A, ⟨0x0B, 1⟩, 5, 0, 0⟩,
   ⟨8, 0x0A, ⟨0x0B, 1⟩, 6, 0, 0⟩,
   ⟨9, 0x0B, ⟨0x0C, 2⟩, 6, 0, 0⟩,
   ⟨10, 0x0B, ⟨0x0A, 2⟩, 6, 0, 0⟩]

/-- Node 0x0A with a table of two slots, both occupied. -/
def fullNode : LoraMesher :=
  runCalls (construct 2 0x0A) [⟨7, 0x0A, ⟨0x0B, 1⟩, 5, 0, 0⟩, ⟨9, 0x0B, ⟨0x0C, 2⟩, 5, 0, 0⟩]

/-- The function `LoraMesher::GetPayloadLength`. -/
def GetPayloadLength (p : packet) : Nat := p.payloadSize

/-- The function `LoraMesher::GetPacketLength`. -/
def GetPacketLength (p : packet) : Nat := (sizeofPacket + 1 * p.payloadSize) % WORD

/-- The function `LoraMesher::GetNumberOfNodes`; the subtraction is done in
`size_t`. -/
def GetNumberOfNodes (p : packet) : Nat :=
  let packetLength := GetPayloadLength p
  let counterSize := 1
  ((packetLength + WORD - counterSize) % WORD) / sizeofNetworkNode

/-- Read of `p->payload[i]`; `none` when the index is outside the bytes that
follow the header. -/
def payloadByte (p : packet) (i : Nat) : Option Nat := p.payload[i]?

/-- The function `LoraMesher::GetNetworkNodeByPosition`: the three bytes at
offset `position * sizeof(networkNode)` read as a packed little-endian record;
`none` when one of them lies outside the payload bytes. -/
def GetNetworkNodeByPosition (p : packet) (position : Nat) : Option networkNode :=
  let off := (position * sizeofNetworkNode) % WORD
  match payloadByte p off, payloadByte p (off + 1), payloadByte p (off + 2) with
  | some b0, some b1, some b2 => some ⟨b0 + 256 * b1, b2⟩
  | _, _, _ => none

/-- The bytes that `memcpy` writes for one `networkNode`. -/
def nodeBytes (n : networkNode) : List Nat :=
  [n.address % 256, n.address / 256 % 256, n.metric % 256]

/-- The copy loop of `CreateRoutingPacket` over the slots it is given. -/
def slotBytes : List routableNode → List Nat
  | [] => []
  | e :: rest => nodeBytes e.networkNode ++ slotBytes rest

/-- The function `LoraMesher::CreateRoutingPacket` (with `malloc` succeeding):
the records of slots `0 .. routingSize-1`, then the hello counter cast to one
byte; `payloadSize` is a `uint8_t`. -/
def CreateRoutingPacket (s : LoraMesher) : packet :=
  let routingSize := routingTableSize s
  let routingSizeInBytes := routingSize * sizeofNetworkNode
  { payload := slotBytes (s.routingTable.take routingSize) ++ [(s.helloCounter % 256).toNat]
    payloadSize := (routingSizeInBytes + 1) % 256
    dst := s.broadcastAddress
    src := s.localAddress
    type := HELLO_P }

/-- The function `LoraMesher::CreatePacket` (with `malloc` succeeding); `mem`
is the content of the freshly allocated block, which the function leaves in
`dst` and `src`. -/
def CreatePacket (mem : packet) (payload : List Nat) (payloadLength : Nat) : packet :=
  { mem with
    payload := payload.take payloadLength
    payloadSize := payloadLength
    type := 3 }

/-- The array `counter` that `sendDataPacket` fills. -/
def dataPayload (dataCounter : Int) : List Nat :=
  (dataCounter % 256).toNat :: (List.range 30).tail

/-- The function `LoraMesher::sendDataPacket`. -/
def sendDataPacket (s : LoraMesher) (mem : packet) : LoraMesher :=
  let tx := { CreatePacket mem (dataPayload s.dataCounter) 30 with
    dst := s.broadcastAddress
    src := s.localAddress
    type := DATA_P }
  { s with
    dataCounter := s.dataCounter + 1
    radio := s.radio ++ [RadioOp.clearDio0Action, RadioOp.transmit tx (GetPacketLength tx),
      RadioOp.setDio0Action, RadioOp.startReceive] }

/-- The clock readings of one run of `DataCallback`, in program order. -/
structure DataClock where
  now : Nat
  transmissionStart : Nat
  transmissionEnd : Nat
  microsAgain : Nat
  millisAfter : Nat
deriving DecidableEq, Repr

/-- The value of `timeToNextPacket` in `DataCallback` (`unsigned long`). -/
def timeToNextPacket (c : DataClock) : Nat :=
  if c.transmissionEnd < c.transmissionStart then
    (99 * ((0 + WORD - 1 + WORD - c.transmissionStart + c.transmissionEnd) % WORD)) % WORD
  else
    (99 * ((c.microsAgain + WORD - c.transmissionStart) % WORD)) % WORD

/-- The function `LoraMesher::DataCallback`. -/
def DataCallback (s : LoraMesher) (c : DataClock) (mem : packet) : LoraMesher :=
  if s.dutyCycleEnd < c.now then
    { sendDataPacket s mem with
      dutyCycleEnd := (c.millisAfter + timeToNextPacket c / 1000 + 1) % WORD }
  else s

/-- What the receive task observes in one iteration of its loop: the result of
`xTaskNotifyWait`, the answers of the radio, the buffer `rx` as `readData`
leaves it, and the clock reading for the k-th `ProcessRoute` call. -/
structure Reception where
  TWres : Bool
  packetSize : Nat
  rssi : Int
  snr : Int
  res : Int
  rx : packet
  micros : Nat → Nat

/-- The loop over the records of a HELLO in `receivingRoutine`: `k` iterations
remain and `i` is the loop variable.  `none` when a record is read outside the
payload bytes. -/
def helloRecords (rx : packet) (helloseqnum rssi snr : Int) (micros : Nat → Nat) :
    Nat → Nat → LoraMesher → Option LoraMesher
  | 0, _, s => some s
  | k + 1, i, s =>
    match GetNetworkNodeByPosition rx i with
    | none => none
    | some nodes =>
      helloRecords rx helloseqnum rssi snr micros k (i + 1)
        (ProcessRoute s (micros (i + 1)) rx.src
          { nodes with metric := (nodes.metric + 1) % 256 } helloseqnum rssi snr)

/-- The branch of `receivingRoutine` for a broadcast packet of type `HELLO_P`. -/
def processHello (s : LoraMesher) (ev : Reception) : Option LoraMesher :=
  match payloadByte ev.rx ((GetPayloadLength ev.rx + WORD - 1) % WORD) with
  | none => none
  | some b =>
    let helloseqnum : Int := b
    match s.metricType with
    | MetricType.HOPCOUNT =>
      helloRecords ev.rx helloseqnum ev.rssi ev.snr ev.micros (GetNumberOfNodes ev.rx) 0
        (ProcessRoute s (ev.micros 0) s.localAddress ⟨ev.rx.src, 1⟩ helloseqnum ev.rssi ev.snr)
    | MetricType.RSSISUM => some s

/-- The dispatch of `receivingRoutine` on destination and type of a packet that
was read; every branch but the broadcast HELLO only logs. -/
def dispatch (s : LoraMesher) (ev : Reception) : Option LoraMesher :=
  if ev.rx.dst = s.broadcastAddress then
    if ev.rx.type = HELLO_P then processHello s ev
    else if ev.rx.type = DATA_P then some s
    else some s
  else if ev.rx.dst = s.localAddress then
    if ev.rx.type = DATA_P then some s
    else if ev.rx.type = HELLO_P then some s
    else some s
  else some s

/-- One iteration of the loop of `LoraMesher::receivingRoutine` (logging left
out).  `none` when the iteration reads outside the payload bytes of `rx`. -/
def receivingRoutine (s : LoraMesher) (ev : Reception) : Option LoraMesher :=
  if ev.TWres then
    let s1 := { s with radio := s.radio ++ [RadioOp.getPacketLength] }
    if ev.packetSize = 0 then some s1
    else
      let s2 := { s1 with
        receivedPackets := s1.receivedPackets + 1
        radio := s1.radio ++ [RadioOp.getRSSI, RadioOp.getSNR, RadioOp.readData] }
      if ev.res ≠ 0 then some s2
      else
        match dispatch s2 ev with
        | none => none
        | some s3 => some { s3 with radio := s3.radio ++ [RadioOp.startReceive] }
  else some s

/-- No empty slot comes before an occupied one. -/
def packed (rt : List routableNode) : Prop :=
  rt.Pairwise (fun e f => e.networkNode.address = 0 → f.networkNode.address = 0)

/-- No two occupied slots hold the same address. -/
def distinctOccupied (rt : List routableNode) : Prop :=
  rt.Pairwise (fun e f => e.networkNode.address ≠ 0 → f.networkNode.address ≠ e.networkNode.address)

/-- No occupied slot holds the address `la`. -/
def avoids (la : Nat) (rt : List routableNode) : Prop :=
  ∀ e ∈ rt, e.networkNode.address ≠ 0 → e.networkNode.address ≠ la

/-- Every slot is occupied. -/
def full (rt : List routableNode) : Prop :=
  ∀ e ∈ rt, e.networkNode.address ≠ 0

/-- The address `a` is held by an occupied slot. -/
def present (a : Nat) (rt : List routableNode) : Prop :=
  a ≠ 0 ∧ ∃ e ∈ rt, e.networkNode.address = a

/-- What the search loop does to a slot it compares with `node`. -/
def relax (node : networkNode) (via : Nat) (e : routableNode) : routableNode :=
  if e.networkNode.address ≠ 0 ∧ node.address = e.networkNode.address then
    (if node.metric < e.networkNode.metric then
      { e with networkNode := { e.networkNode with metric := node.metric }, via := via }
     else e)
  else e

/-- The search loop of `ProcessRoute` run over every slot of the table. -/
def scanAll (node : networkNode) (via : Nat) : List routableNode → Bool × List routableNode
  | [] => (false, [])
  | e :: rest =>
    if e.networkNode.address ≠ 0 ∧ node.address = e.networkNode.address then
      (true, relax node via e :: rest)
    else
      ((scanAll node via rest).1, e :: (scanAll node via rest).2)

instance (rt : List routableNode) : Decidable (packed rt) := by
  unfold packed; infer_instance

instance (rt : List routableNode) : Decidable (distinctOccupied rt) := by
  unfold distinctOccupied; infer_instance

instance (la : Nat) (rt : List routableNode) : Decidable (avoids la rt) := by
  unfold avoids; infer_instance

instance (rt : List routableNode) : Decidable (full rt) := by
  unfold full; infer_instance

instance (a : Nat) (rt : List routableNode) : Decidable (present a rt) := by
  unfold present; infer_instance

/-- The structural invariant of the routing table: occupied slots first, no
duplicate address, never the local address. -/
def TableOk (s : LoraMesher) : Prop :=
  packed s.routingTable ∧ distinctOccupied s.routingTable ∧
    avoids s.localAddress s.routingTable

instance (s : LoraMesher) : Decidable (TableOk s) := by
  unfold TableOk; infer_instance

/-- The metrics that the calls `calls` offer for the address `a`. -/
def offeredMetrics (calls : List RouteCall) (a : Nat) : List Nat :=
  (calls.filter (fun c => c.node.address = a)).map (fun c => c.node.metric)

/-- The distinct non-zero, non-local addresses that the calls `calls` offer. -/
def offeredAddresses (la : Nat) (calls : List RouteCall) : List Nat :=
  ((calls.map (fun c => c.node.address)).filter (fun a => a ≠ 0 ∧ a ≠ la)).dedup

/-- The table follows the calls seen so far: an occupied slot holds the least
metric offered for its address, and an address that was offered is in the table
unless the table is full. -/
def tracks (la : Nat) (seen : List RouteCall) (rt : List routableNode) : Prop :=
  (∀ e ∈ rt, e.networkNode.address ≠ 0 →
    (∃ c ∈ seen, c.node.address = e.networkNode.address ∧
      c.node.metric = e.networkNode.metric) ∧
    ∀ c ∈ seen, c.node.address = e.networkNode.address →
      e.networkNode.metric ≤ c.node.metric) ∧
  (∀ c ∈ seen, c.node.address ≠ 0 → c.node.address ≠ la →
    present c.node.address rt ∨ full rt)

instance (la : Nat) (seen : List RouteCall) (rt : List routableNode) :
    Decidable (tracks la seen rt) := by
  unfold tracks; infer_instance

/-- The records that the loop of `receivingRoutine` reads from a HELLO. -/
def snapshot (rx : packet) : List networkNode :=
  (List.range (GetNumberOfNodes rx)).filterMap (GetNetworkNodeByPosition rx)

/-- A HELLO from 0x0B with sequence number 5 and an empty snapshot. -/
def helloFromB : Reception where
  TWres := true
  packetSize := 7
  rssi := -60
  snr := 9
  res := 0
  rx := ⟨0xFFFF, 0x0B, HELLO_P, 1, [5]⟩
  micros := fun k => 7 + k

/-- A HELLO from 0x0B with sequence number 6 whose snapshot is the record of
0x0C with wire metric 1. -/
def helloFromBwithC : Reception where
  TWres := true
  packetSize := 10
  rssi := -60
  snr := 9
  res := 0
  rx := ⟨0xFFFF, 0x0B, HELLO_P, 4, [0x0C, 0x00, 1, 6]⟩
  micros := fun k => 8 + k

/-- A HELLO from 0x0D with sequence number 7 whose snapshot is the record of
0x0C with wire metric 1. -/
def helloFromD : Reception where
  TWres := true
  packetSize := 10
  rssi := -70
  snr := 7
  res := 0
  rx := ⟨0xFFFF, 0x0D, HELLO_P, 4, [0x0C, 0x00, 1, 7]⟩
  micros := fun k => 11 + k

/-- A HELLO from 0x0B with sequence number 6 whose snapshot is the record of
0x0C with wire metric 255. -/
def helloWrap : Reception where
  TWres := true
  packetSize := 10
  rssi := -60
  snr := 9
  res := 0
  rx := ⟨0xFFFF, 0x0B, HELLO_P, 4, [0x0C, 0x00, 0xFF, 6]⟩
  micros := fun k => 7 + k

/-- The records of the occupied slots, in table storage order. -/
def tableRecords (s : LoraMesher) : List networkNode :=
  (s.routingTable.filter (fun e => e.networkNode.address ≠ 0)).map (fun e => e.networkNode)

/-- The arguments of the calls fit the C types: a 16-bit address and an 8-bit
metric. -/
def typedCalls (calls : List RouteCall) : Prop :=
  ∀ c ∈ calls, c.node.address < 65536 ∧ c.node.metric < 256

instance (calls : List RouteCall) : Decidable (typedCalls calls) := by
  unfold typedCalls; infer_instance

/-- The occupied slots hold values of the C types. -/
def typedTable (rt : List routableNode) : Prop :=
  ∀ e ∈ rt, e.networkNode.address ≠ 0 →
    e.networkNode.address < 65536 ∧ e.networkNode.metric < 256

instance (rt : List routableNode) : Decidable (typedTable rt) := by
  unfold typedTable; infer_instance

/-- Eighty-five calls that offer eighty-five distinct addresses. -/
def bigCalls : List RouteCall :=
  (List.range 85).map (fun i => ⟨i, 0x0A, ⟨0x100 + i, 1⟩, 0, 0, 0⟩)

/-- Node 0x0A with a table of 85 slots after the calls `bigCalls`. -/
def bigNode : LoraMesher := runCalls (construct 85 0x0A) bigCalls

/-- Node 0x0A during a cooldown that ends at 5000 ms. -/
def coolingNode : LoraMesher := { nodeA with dutyCycleEnd := 5000 }

/-- Clock readings of a `DataCallback` run that starts at 5000 ms. -/
def clockAtEnd : DataClock := ⟨5000, 1000, 41000, 41010, 5041⟩

/-- Clock readings of a `DataCallback` run that starts at 5001 ms. -/
def clockAfterEnd : DataClock := ⟨5001, 1000, 41000, 41010, 5042⟩

/-- The content of a freshly allocated block. -/
def freshBlock : packet := ⟨0, 0, 0, 0, []⟩

/-- The receive task was notified, the read succeeded, and the packet read is a
broadcast HELLO whose declared payload (at least the sequence byte, at most
255 bytes) lies inside the bytes of the buffer. -/
def broadcastHello (s : LoraMesher) (ev : Reception) : Prop :=
  ev.TWres = true ∧ ev.packetSize ≠ 0 ∧ ev.res = 0 ∧ ev.rx.dst = s.broadcastAddress ∧
    ev.rx.type = HELLO_P ∧ 1 ≤ ev.rx.payloadSize ∧ ev.rx.payloadSize ≤ 255 ∧
    ev.rx.payloadSize ≤ ev.rx.payload.length

instance (s : LoraMesher) (ev : Reception) : Decidable (broadcastHello s ev) := by
  unfold broadcastHello; infer_instance

/-- The function `LoraMesher::initializeLocalAddress`; `WiFiMAC` is the array of
six bytes that `WiFi.macAddress` fills, and the member `localAddress` holds 16
bits. -/
def initializeLocalAddress (s : LoraMesher) (WiFiMAC : Fin 6 → Nat) : LoraMesher :=
  { s with localAddress := ((WiFiMAC 4 <<< 8) ||| WiFiMAC 5) % 65536 }

/-- The function `LoraMesher::getLocalAddress`; its return type is `uint8_t`. -/
def getLocalAddress (s : LoraMesher) : Nat := s.localAddress % 256

/-- A hardware address whose last two bytes are 0x12 and 0x34. -/
def sampleMAC : Fin 6 → Nat := ![0x24, 0x6F, 0x28, 0xAA, 0x12, 0x34]

/-- A notification for which the radio reports a frame of length 0. -/
def emptyFrame : Reception where
  TWres := true
  packetSize := 0
  rssi := 0
  snr := 0
  res := 0
  rx := ⟨0, 0, 3, 200, []⟩
  micros := fun k => 20 + k

/-- A notification for which `readData` returns an error code. -/
def failedRead : Reception where
  TWres := true
  packetSize := 10
  rssi := -90
  snr := 2
  res := -7
  rx := ⟨0, 0, 3, 200, []⟩
  micros := fun k => 20 + k

/-- A broadcast HELLO from 0x0B whose header declares `payloadSize` 0; the
buffer holds three more bytes after the header. -/
def helloEmpty : Reception where
  TWres := true
  packetSize := 6
  rssi := -60
  snr := 9
  res := 0
  rx := ⟨0xFFFF, 0x0B, HELLO_P, 0, [0x0C, 0x00, 1]⟩
  micros := fun k => 30 + k

/-- A DATA packet from 0x0B addressed to node 0x0A. -/
def dataToMe : Reception where
  TWres := true
  packetSize := 9
  rssi := -60
  snr := 9
  res := 0
  rx := ⟨0x0A, 0x0B, DATA_P, 3, [1, 2, 3]⟩
  micros := fun k => 40 + k

/-- A HELLO from 0x0B addressed to node 0x0A (not broadcast) that advertises
0x0C with wire metric 1. -/
def helloToMe : Reception where
  TWres := true
  packetSize := 10
  rssi := -60
  snr := 9
  res := 0
  rx := ⟨0x0A, 0x0B, HELLO_P, 4, [0x0C, 0x00, 1, 6]⟩
  micros := fun k => 40 + k

/-- Clock readings of a `DataCallback` run whose transmission lasts 1000
microseconds across the wrap of the 32-bit microsecond clock. -/
def rolloverClock : DataClock := ⟨6000, 4294967000, 704, 710, 6001⟩

/-- Clock readings of a `DataCallback` run whose transmission lasts 1000
microseconds without a wrap. -/
def plainClock : DataClock := ⟨6000, 1000, 2000, 2000, 6001⟩

/-- Calls at node 0x0A that include the sentinel address 0 and the local
address. -/
def sentinelCalls : List RouteCall :=
  [⟨7, 0x0A, ⟨0x0B, 1⟩, 5, 0, 0⟩,
   ⟨8, 0x0B, ⟨0, 3⟩, 5, 0, 0⟩,
   ⟨9, 0x0B, ⟨0x0C, 2⟩, 5, 0, 0⟩,
   ⟨10, 0x0B, ⟨0x0A, 2⟩, 5, 0, 0⟩,
   ⟨11, 0x0C, ⟨0, 1⟩, 6, 0, 0⟩]

/-! ## Lemmas on the table, and the claims -/

theorem countOccupied_free (rt : List routableNode)
    (h : ∀ e ∈ rt, e.networkNode.address = 0) : countOccupied rt = 0 := by
  induction rt with
  | nil => rfl
  | cons e rest ih =>
    have he : e.networkNode.address = 0 := h e (List.mem_cons_self _ _)
    have hr : ∀ f ∈ rest, f.networkNode.address = 0 :=
      fun f hf => h f (List.mem_cons_of_mem _ hf)
    simp [countOccupied, he, ih hr]

theorem countOccupied_full (rt : List routableNode) (h : full rt) :
    countOccupied rt = rt.length := by
  induction rt with
  | nil => rfl
  | cons e rest ih =>
    have he : e.networkNode.address ≠ 0 := h e (List.mem_cons_self _ _)
    have hr : full rest := fun f hf => h f (List.mem_cons_of_mem _ hf)
    simp [countOccupied, he, ih hr]

theorem countOccupied_le (rt : List routableNode) : countOccupied rt ≤ rt.length := by
  induction rt with
  | nil => simp [countOccupied]
  | cons e rest ih =>
    by_cases he : e.networkNode.address = 0
    · simp [countOccupied, he]; omega
    · simp [countOccupied, he]; omega

theorem scanAll_free (node : networkNode) (via : Nat) (rt : List routableNode)
    (h : ∀ e ∈ rt, e.networkNode.address = 0) : scanAll node via rt = (false, rt) := by
  induction rt with
  | nil => rfl
  | cons e rest ih =>
    have he : e.networkNode.address = 0 := h e (List.mem_cons_self _ _)
    have hr : ∀ f ∈ rest, f.networkNode.address = 0 :=
      fun f hf => h f (List.mem_cons_of_mem _ hf)
    simp [scanAll, he, ih hr]

/-- On a packed table the bounded search visits every occupied slot. -/
theorem scanSlots_packed (node : networkNode) (via : Nat) (rt : List routableNode)
    (h : packed rt) : scanSlots node via (countOccupied rt) rt = scanAll node via rt := by
  induction rt with
  | nil => simp [scanSlots, scanAll, countOccupied]
  | cons e rest ih =>
    have hp := List.pairwise_cons.mp h
    by_cases he : e.networkNode.address = 0
    · have hr : ∀ f ∈ rest, f.networkNode.address = 0 := fun f hf => hp.1 f hf he
      have hall : ∀ f ∈ e :: rest, f.networkNode.address = 0 := by
        intro f hf
        rcases List.mem_cons.mp hf with rfl | hf
        · exact he
        · exact hr f hf
      rw [countOccupied_free _ hall, scanAll_free _ _ _ hall]
      simp [scanSlots]
    · have ih2 := ih hp.2
      simp only [countOccupied, he, ne_eq, not_false_eq_true, if_true, scanSlots, scanAll,
        true_and]
      by_cases hc : node.address = e.networkNode.address
      · simp [hc, relax, he]
      · simp [hc, ih2]

theorem scanAll_map (node : networkNode) (via : Nat) (rt : List routableNode)
    (h : distinctOccupied rt) : (scanAll node via rt).2 = rt.map (relax node via) := by
  induction rt with
  | nil => rfl
  | cons e rest ih =>
    have hp := List.pairwise_cons.mp h
    by_cases hc : e.networkNode.address ≠ 0 ∧ node.address = e.networkNode.address
    · have hrest : rest.map (relax node via) = rest := by
        have : ∀ f ∈ rest, relax node via f = f := by
          intro f hf
          have hne := hp.1 f hf hc.1
          have : ¬ (node.address = f.networkNode.address) := by
            intro hx; exact hne (by rw [← hx, hc.2])
          simp [relax, this]
        calc rest.map (relax node via) = rest.map id := List.map_congr_left this
          _ = rest := List.map_id _
      simp only [scanAll, hc, and_self, if_true, List.map_cons, hrest, ne_eq, not_false_eq_true]
    · have hrel : relax node via e = e := by simp [relax, hc]
      simp only [scanAll, hc, if_false, List.map_cons, hrel, ih hp.2]

theorem scanAll_found (node : networkNode) (via : Nat) (rt : List routableNode) :
    (scanAll node via rt).1 = true ↔ present node.address rt := by
  induction rt with
  | nil => simp [scanAll, present]
  | cons e rest ih =>
    by_cases hc : e.networkNode.address ≠ 0 ∧ node.address = e.networkNode.address
    · have : present node.address (e :: rest) :=
        ⟨by rw [hc.2]; exact hc.1, e, List.mem_cons_self _ _, hc.2.symm⟩
      have h1 : (scanAll node via (e :: rest)).1 = true := by
        simp only [scanAll, hc, and_self, if_true, ne_eq, not_false_eq_true]
      exact ⟨fun _ => this, fun _ => h1⟩
    · simp only [scanAll, hc, if_false, ih]
      constructor
      · rintro ⟨h0, f, hf, hfa⟩
        exact ⟨h0, f, List.mem_cons_of_mem _ hf, hfa⟩
      · rintro ⟨h0, f, hf, hfa⟩
        refine ⟨h0, ?_⟩
        rcases List.mem_cons.mp hf with rfl | hf
        · exact absurd ⟨by rw [hfa]; exact h0, hfa.symm⟩ hc
        · exact ⟨f, hf, hfa⟩

theorem relax_address (node : networkNode) (via : Nat) (e : routableNode) :
    (relax node via e).networkNode.address = e.networkNode.address := by
  unfold relax
  split_ifs <;> rfl

theorem scanAll_absent (node : networkNode) (via : Nat) (rt : List routableNode)
    (h : ¬ present node.address rt) : scanAll node via rt = (false, rt) := by
  induction rt with
  | nil => rfl
  | cons e rest ih =>
    have hc : ¬ (e.networkNode.address ≠ 0 ∧ node.address = e.networkNode.address) := by
      intro hc
      exact h ⟨by rw [hc.2]; exact hc.1, e, List.mem_cons_self _ _, hc.2.symm⟩
    have hr : ¬ present node.address rest := by
      rintro ⟨h0, f, hf, hfa⟩
      exact h ⟨h0, f, List.mem_cons_of_mem _ hf, hfa⟩
    simp only [scanAll, hc, if_false, ih hr]

theorem distinctOccupied_eq (rt : List routableNode) (h : distinctOccupied rt)
    (e f : routableNode) (he : e ∈ rt) (hf : f ∈ rt) (h0 : e.networkNode.address ≠ 0)
    (hef : e.networkNode.address = f.networkNode.address) : e = f := by
  induction rt with
  | nil => cases he
  | cons x rest ih =>
    have hp := List.pairwise_cons.mp h
    rcases List.mem_cons.mp he with he1 | he1
    · rcases List.mem_cons.mp hf with hf1 | hf1
      · rw [he1, hf1]
      · subst he1
        exact absurd hef.symm (hp.1 f hf1 h0)
    · rcases List.mem_cons.mp hf with hf1 | hf1
      · subst hf1
        exact absurd hef (hp.1 e he1 (by rw [← hef]; exact h0))
      · exact ih hp.2 he1 hf1

theorem mem_addSlot (fresh : routableNode) (rt : List routableNode) (e : routableNode)
    (h : e ∈ addSlot fresh rt) : e = fresh ∨ e ∈ rt := by
  induction rt with
  | nil => simp [addSlot] at h
  | cons x rest ih =>
    by_cases hx : x.networkNode.address = 0
    · simp only [addSlot, hx, if_true, List.mem_cons] at h
      rcases h with h | h
      · exact Or.inl h
      · exact Or.inr (List.mem_cons_of_mem _ h)
    · simp only [addSlot, hx, if_false, List.mem_cons] at h
      rcases h with h | h
      · exact Or.inr (by rw [h]; exact List.mem_cons_self _ _)
      · rcases ih h with h | h
        · exact Or.inl h
        · exact Or.inr (List.mem_cons_of_mem _ h)

theorem mem_addSlot_occupied (fresh : routableNode) (rt : List routableNode) (e : routableNode)
    (h : e ∈ rt) (h0 : e.networkNode.address ≠ 0) : e ∈ addSlot fresh rt := by
  induction rt with
  | nil => cases h
  | cons x rest ih =>
    by_cases hx : x.networkNode.address = 0
    · simp only [addSlot, hx, if_true]
      rcases List.mem_cons.mp h with rfl | h
      · exact absurd hx h0
      · exact List.mem_cons_of_mem _ h
    · simp only [addSlot, hx, if_false]
      rcases List.mem_cons.mp h with rfl | h
      · exact List.mem_cons_self _ _
      · exact List.mem_cons_of_mem _ (ih h)

theorem addSlot_full (fresh : routableNode) (rt : List routableNode) (h : full rt) :
    addSlot fresh rt = rt := by
  induction rt with
  | nil => rfl
  | cons x rest ih =>
    have hx : x.networkNode.address ≠ 0 := h x (List.mem_cons_self _ _)
    have hr : full rest := fun f hf => h f (List.mem_cons_of_mem _ hf)
    simp only [addSlot, hx, if_false, ih hr]

theorem fresh_mem_addSlot (fresh : routableNode) (rt : List routableNode) (h : ¬ full rt) :
    fresh ∈ addSlot fresh rt := by
  induction rt with
  | nil => exact absurd (fun e he => by cases he) h
  | cons x rest ih =>
    by_cases hx : x.networkNode.address = 0
    · simp only [addSlot, hx, if_true]
      exact List.mem_cons_self _ _
    · simp only [addSlot, hx, if_false]
      refine List.mem_cons_of_mem _ (ih ?_)
      intro hr
      apply h
      intro f hf
      rcases List.mem_cons.mp hf with rfl | hf
      · exact hx
      · exact hr f hf

theorem addSlot_length (fresh : routableNode) (rt : List routableNode) :
    (addSlot fresh rt).length = rt.length := by
  induction rt with
  | nil => rfl
  | cons x rest ih =>
    by_cases hx : x.networkNode.address = 0
    · simp [addSlot, hx]
    · simp [addSlot, hx, ih]

theorem packed_addSlot (fresh : routableNode) (rt : List routableNode) (h : packed rt) :
    packed (addSlot fresh rt) := by
  induction rt with
  | nil => exact h
  | cons x rest ih =>
    have hp := List.pairwise_cons.mp h
    by_cases hx : x.networkNode.address = 0
    · simp only [addSlot, hx, if_true]
      exact List.pairwise_cons.mpr ⟨fun f hf _ => hp.1 f hf hx, hp.2⟩
    · simp only [addSlot, hx, if_false]
      exact List.pairwise_cons.mpr ⟨fun f _ h0 => absurd h0 hx, ih hp.2⟩

theorem distinctOccupied_addSlot (fresh : routableNode) (rt : List routableNode)
    (h : distinctOccupied rt)
    (hnew : fresh.networkNode.address ≠ 0 →
      ∀ e ∈ rt, e.networkNode.address ≠ fresh.networkNode.address) :
    distinctOccupied (addSlot fresh rt) := by
  induction rt with
  | nil => exact h
  | cons x rest ih =>
    have hp := List.pairwise_cons.mp h
    have hnew2 : fresh.networkNode.address ≠ 0 →
        ∀ e ∈ rest, e.networkNode.address ≠ fresh.networkNode.address :=
      fun h0 e he => hnew h0 e (List.mem_cons_of_mem _ he)
    by_cases hx : x.networkNode.address = 0
    · simp only [addSlot, hx, if_true]
      exact List.pairwise_cons.mpr ⟨fun f hf h0 => hnew2 h0 f hf, hp.2⟩
    · simp only [addSlot, hx, if_false]
      refine List.pairwise_cons.mpr ⟨?_, ih hp.2 hnew2⟩
      intro f hf h0
      rcases mem_addSlot _ _ _ hf with rfl | hf
      · intro heq
        by_cases hf0 : f.networkNode.address = 0
        · exact hx (by rw [← heq]; exact hf0)
        · exact hnew hf0 x (List.mem_cons_self _ _) heq.symm
      · exact hp.1 f hf h0

theorem packed_map_relax (node : networkNode) (via : Nat) (rt : List routableNode)
    (h : packed rt) : packed (rt.map (relax node via)) := by
  unfold packed
  rw [List.pairwise_map]
  simpa [relax_address] using h

theorem distinctOccupied_map_relax (node : networkNode) (via : Nat) (rt : List routableNode)
    (h : distinctOccupied rt) : distinctOccupied (rt.map (relax node via)) := by
  unfold distinctOccupied
  rw [List.pairwise_map]
  simpa [relax_address] using h

theorem map_relax_absent (node : networkNode) (via : Nat) (rt : List routableNode)
    (h : ¬ present node.address rt) : rt.map (relax node via) = rt := by
  have : ∀ f ∈ rt, relax node via f = f := by
    intro f hf
    have hc : ¬ (f.networkNode.address ≠ 0 ∧ node.address = f.networkNode.address) := by
      intro hc
      exact h ⟨by rw [hc.2]; exact hc.1, f, hf, hc.2.symm⟩
    simp only [relax, hc, if_false]
  calc rt.map (relax node via) = rt.map id := List.map_congr_left this
    _ = rt := List.map_id _

/-- What `ProcessRoute` does to a packed table without duplicates: nothing for
the local address or under the other metric type, a relaxation of the known
entry, or an insertion. -/
theorem ProcessRoute_table (s : LoraMesher) (now via : Nat) (node : networkNode)
    (seq rssi snr : Int) (hp : packed s.routingTable) (hd : distinctOccupied s.routingTable) :
    ProcessRoute s now via node seq rssi snr =
      { s with routingTable :=
          if s.metricType = MetricType.HOPCOUNT ∧ node.address ≠ s.localAddress then
            if present node.address s.routingTable then s.routingTable.map (relax node via)
            else addSlot ⟨node, seq, (now + s.routeTimeout) % WORD, via⟩ s.routingTable
          else s.routingTable } := by
  obtain ⟨dce, lst, rto, mt, bc, hc, rp, dc, la, rt, rad⟩ := s
  simp only at hp hd
  unfold ProcessRoute
  cases mt with
  | RSSISUM => simp
  | HOPCOUNT =>
    by_cases hl : node.address = la
    · simp [hl]
    · simp only [routingTableSize, scanSlots_packed _ _ _ hp, ne_eq, hl, not_false_eq_true,
        if_true, and_self, AddNodeToRoutingTable]
      by_cases hk : present node.address rt
      · have hf := (scanAll_found node via rt).mpr hk
        simp [hf, hk, scanAll_map _ _ _ hd]
      · simp [scanAll_absent _ _ _ hk, hk]

/-- The function `ProcessRoute` writes no member other than `routingTable`. -/
theorem ProcessRoute_frame (s : LoraMesher) (now via : Nat) (node : networkNode)
    (seq rssi snr : Int) :
    ProcessRoute s now via node seq rssi snr =
      { s with routingTable := (ProcessRoute s now via node seq rssi snr).routingTable } := by
  obtain ⟨dce, lst, rto, mt, bc, hc, rp, dc, la, rt, rad⟩ := s
  unfold ProcessRoute
  cases mt with
  | RSSISUM => rfl
  | HOPCOUNT =>
    simp only [AddNodeToRoutingTable]
    split_ifs <;> rfl

theorem ProcessRoute_localAddress (s : LoraMesher) (now via : Nat) (node : networkNode)
    (seq rssi snr : Int) :
    (ProcessRoute s now via node seq rssi snr).localAddress = s.localAddress := by
  rw [ProcessRoute_frame]

theorem ProcessRoute_metricType (s : LoraMesher) (now via : Nat) (node : networkNode)
    (seq rssi snr : Int) :
    (ProcessRoute s now via node seq rssi snr).metricType = s.metricType := by
  rw [ProcessRoute_frame]

theorem runCalls_localAddress (s : LoraMesher) (calls : List RouteCall) :
    (runCalls s calls).localAddress = s.localAddress := by
  induction calls generalizing s with
  | nil => rfl
  | cons c rest ih => simp only [runCalls, ih, ProcessRoute_localAddress]

theorem runCalls_metricType (s : LoraMesher) (calls : List RouteCall) :
    (runCalls s calls).metricType = s.metricType := by
  induction calls generalizing s with
  | nil => rfl
  | cons c rest ih => simp only [runCalls, ih, ProcessRoute_metricType]

theorem TableOk_of_free (s : LoraMesher)
    (h : ∀ e ∈ s.routingTable, e.networkNode.address = 0) : TableOk s := by
  refine ⟨?_, ?_, ?_⟩
  · exact List.pairwise_of_forall_mem_list (fun a _ b hb _ => h b hb)
  · exact List.pairwise_of_forall_mem_list (fun a ha b _ h0 => absurd (h a ha) h0)
  · exact fun e he h0 => absurd (h e he) h0

theorem TableOk_ProcessRoute (s : LoraMesher) (now via : Nat) (node : networkNode)
    (seq rssi snr : Int) (h : TableOk s) :
    TableOk (ProcessRoute s now via node seq rssi snr) := by
  obtain ⟨hp, hd, ha⟩ := h
  rw [ProcessRoute_table s now via node seq rssi snr hp hd]
  unfold TableOk
  simp only
  by_cases hc : s.metricType = MetricType.HOPCOUNT ∧ node.address ≠ s.localAddress
  · rw [if_pos hc]
    by_cases hk : present node.address s.routingTable
    · rw [if_pos hk]
      refine ⟨packed_map_relax _ _ _ hp, distinctOccupied_map_relax _ _ _ hd, ?_⟩
      intro e he
      obtain ⟨f, hf, rfl⟩ := List.mem_map.mp he
      rw [relax_address]
      exact ha f hf
    · rw [if_neg hk]
      refine ⟨packed_addSlot _ _ hp, distinctOccupied_addSlot _ _ hd ?_, ?_⟩
      · intro h0 e he heq
        exact hk ⟨h0, e, he, heq⟩
      · intro e he h0
        rcases mem_addSlot _ _ _ he with rfl | he
        · exact hc.2
        · exact ha e he h0
  · rw [if_neg hc]
    exact ⟨hp, hd, ha⟩

theorem TableOk_runCalls (s : LoraMesher) (calls : List RouteCall) (h : TableOk s) :
    TableOk (runCalls s calls) := by
  induction calls generalizing s with
  | nil => exact h
  | cons c rest ih => exact ih _ (TableOk_ProcessRoute _ _ _ _ _ _ _ h)

theorem present_map_relax (node : networkNode) (via : Nat) (rt : List routableNode) (a : Nat)
    (h : present a rt) : present a (rt.map (relax node via)) := by
  obtain ⟨h0, e, he, hea⟩ := h
  exact ⟨h0, relax node via e, List.mem_map_of_mem _ he, by rw [relax_address, hea]⟩

theorem full_map_relax (node : networkNode) (via : Nat) (rt : List routableNode)
    (h : full rt) : full (rt.map (relax node via)) := by
  intro e he
  obtain ⟨f, hf, rfl⟩ := List.mem_map.mp he
  rw [relax_address]
  exact h f hf

theorem present_addSlot (fresh : routableNode) (rt : List routableNode) (a : Nat)
    (h : present a rt) : present a (addSlot fresh rt) := by
  obtain ⟨h0, e, he, hea⟩ := h
  exact ⟨h0, e, mem_addSlot_occupied _ _ _ he (by rw [hea]; exact h0), hea⟩

theorem tracks_step (s : LoraMesher) (seen : List RouteCall) (c : RouteCall)
    (hok : TableOk s) (hm : s.metricType = MetricType.HOPCOUNT)
    (h : tracks s.localAddress seen s.routingTable) :
    tracks s.localAddress (seen ++ [c])
      (ProcessRoute s c.now c.via c.node c.helloseqnum c.rssi c.snr).routingTable := by
  obtain ⟨hp, hd, ha⟩ := hok
  obtain ⟨hmin, hoff⟩ := h
  rw [ProcessRoute_table s _ _ _ _ _ _ hp hd]
  simp only
  by_cases hl : c.node.address = s.localAddress
  · -- the local address is ignored
    have hc : ¬ (s.metricType = MetricType.HOPCOUNT ∧ c.node.address ≠ s.localAddress) :=
      fun hc => hc.2 hl
    rw [if_neg hc]
    refine ⟨?_, ?_⟩
    · intro e he h0
      obtain ⟨⟨c1, hc1, hc1a, hc1m⟩, hle⟩ := hmin e he h0
      refine ⟨⟨c1, List.mem_append_left _ hc1, hc1a, hc1m⟩, ?_⟩
      intro c2 hc2 hc2a
      rcases List.mem_append.mp hc2 with hc2 | hc2
      · exact hle c2 hc2 hc2a
      · rw [List.mem_singleton.mp hc2] at hc2a
        exact absurd (hc2a.symm.trans hl) (ha e he h0)
    · intro c2 hc2 h0 hla
      rcases List.mem_append.mp hc2 with hc2 | hc2
      · exact hoff c2 hc2 h0 hla
      · rw [List.mem_singleton.mp hc2] at hla
        exact absurd hl hla
  · have hc : s.metricType = MetricType.HOPCOUNT ∧ c.node.address ≠ s.localAddress := ⟨hm, hl⟩
    rw [if_pos hc]
    by_cases hk : present c.node.address s.routingTable
    · -- a known address: the entry is relaxed
      rw [if_pos hk]
      refine ⟨?_, ?_⟩
      · intro e he h0
        obtain ⟨f, hf, rfl⟩ := List.mem_map.mp he
        rw [relax_address] at h0 ⊢
        obtain ⟨⟨c1, hc1, hc1a, hc1m⟩, hle⟩ := hmin f hf h0
        by_cases hfa : c.node.address = f.networkNode.address
        · by_cases hlt : c.node.metric < f.networkNode.metric
          · have hr : (relax c.node c.via f).networkNode.metric = c.node.metric := by
              simp [relax, h0, hfa, hlt]
            rw [hr]
            refine ⟨⟨c, List.mem_append_right _ (List.mem_singleton_self _), hfa, rfl⟩, ?_⟩
            intro c2 hc2 hc2a
            rcases List.mem_append.mp hc2 with hc2 | hc2
            · exact le_trans (le_of_lt hlt) (hle c2 hc2 hc2a)
            · rw [List.mem_singleton.mp hc2]
          · have hr : relax c.node c.via f = f := by
              simp [relax, h0, hfa, hlt]
            rw [hr]
            refine ⟨⟨c1, List.mem_append_left _ hc1, hc1a, hc1m⟩, ?_⟩
            intro c2 hc2 hc2a
            rcases List.mem_append.mp hc2 with hc2 | hc2
            · exact hle c2 hc2 hc2a
            · rw [List.mem_singleton.mp hc2]
              exact Nat.le_of_not_lt hlt
        · have hr : relax c.node c.via f = f := by
            simp [relax, hfa]
          rw [hr]
          refine ⟨⟨c1, List.mem_append_left _ hc1, hc1a, hc1m⟩, ?_⟩
          intro c2 hc2 hc2a
          rcases List.mem_append.mp hc2 with hc2 | hc2
          · exact hle c2 hc2 hc2a
          · rw [List.mem_singleton.mp hc2] at hc2a
            exact absurd hc2a hfa
      · intro c2 hc2 h0 hla
        rcases List.mem_append.mp hc2 with hc2 | hc2
        · rcases hoff c2 hc2 h0 hla with hpr | hfu
          · exact Or.inl (present_map_relax _ _ _ _ hpr)
          · exact Or.inr (full_map_relax _ _ _ hfu)
        · rw [List.mem_singleton.mp hc2]
          exact Or.inl (present_map_relax _ _ _ _ hk)
    · -- an unknown address: the insertion
      rw [if_neg hk]
      by_cases hfu : full s.routingTable
      · rw [addSlot_full _ _ hfu]
        refine ⟨?_, ?_⟩
        · intro e he h0
          obtain ⟨⟨c1, hc1, hc1a, hc1m⟩, hle⟩ := hmin e he h0
          refine ⟨⟨c1, List.mem_append_left _ hc1, hc1a, hc1m⟩, ?_⟩
          intro c2 hc2 hc2a
          rcases List.mem_append.mp hc2 with hc2 | hc2
          · exact hle c2 hc2 hc2a
          · rw [List.mem_singleton.mp hc2] at hc2a
            exact (hk ⟨by rw [hc2a]; exact h0, e, he, hc2a.symm⟩).elim
        · intro c2 _ _ _
          exact Or.inr hfu
      · refine ⟨?_, ?_⟩
        · intro e he h0
          rcases mem_addSlot _ _ _ he with rfl | he
          · refine ⟨⟨c, List.mem_append_right _ (List.mem_singleton_self _), rfl, rfl⟩, ?_⟩
            intro c2 hc2 hc2a
            rcases List.mem_append.mp hc2 with hc2 | hc2
            · simp only at hc2a h0
              rcases hoff c2 hc2 (by rw [hc2a]; exact h0) (by rw [hc2a]; exact hl) with hpr | hf2
              · rw [hc2a] at hpr
                exact absurd hpr hk
              · exact absurd hf2 hfu
            · rw [List.mem_singleton.mp hc2]
          · obtain ⟨⟨c1, hc1, hc1a, hc1m⟩, hle⟩ := hmin e he h0
            refine ⟨⟨c1, List.mem_append_left _ hc1, hc1a, hc1m⟩, ?_⟩
            intro c2 hc2 hc2a
            rcases List.mem_append.mp hc2 with hc2 | hc2
            · exact hle c2 hc2 hc2a
            · rw [List.mem_singleton.mp hc2] at hc2a
              exact (hk ⟨by rw [hc2a]; exact h0, e, he, hc2a.symm⟩).elim
        · intro c2 hc2 h0 hla
          rcases List.mem_append.mp hc2 with hc2 | hc2
          · rcases hoff c2 hc2 h0 hla with hpr | hf2
            · exact Or.inl (present_addSlot _ _ _ hpr)
            · exact absurd hf2 hfu
          · rw [List.mem_singleton.mp hc2] at h0 ⊢
            exact Or.inl ⟨h0, _, fresh_mem_addSlot _ _ hfu, rfl⟩

theorem tracks_runCalls (s : LoraMesher) (seen calls : List RouteCall)
    (hok : TableOk s) (hm : s.metricType = MetricType.HOPCOUNT)
    (h : tracks s.localAddress seen s.routingTable) :
    tracks s.localAddress (seen ++ calls) (runCalls s calls).routingTable := by
  induction calls generalizing s seen with
  | nil => simpa [runCalls] using h
  | cons c rest ih =>
    have h1 := tracks_step s seen c hok hm h
    have h2 := ih (ProcessRoute s c.now c.via c.node c.helloseqnum c.rssi c.snr) (seen ++ [c])
      (TableOk_ProcessRoute _ _ _ _ _ _ _ hok)
      (by rw [ProcessRoute_metricType]; exact hm)
      (by rw [ProcessRoute_localAddress]; exact h1)
    rw [ProcessRoute_localAddress] at h2
    simpa [runCalls] using h2

theorem runCalls_rssisum (s : LoraMesher) (calls : List RouteCall)
    (hm : s.metricType = MetricType.RSSISUM) : runCalls s calls = s := by
  induction calls with
  | nil => rfl
  | cons c rest ih =>
    have : ProcessRoute s c.now c.via c.node c.helloseqnum c.rssi c.snr = s := by
      unfold ProcessRoute
      rw [hm]
    simp only [runCalls, this, ih]

theorem RTMAXSIZE_ProcessRoute (s : LoraMesher) (now via : Nat) (node : networkNode)
    (seq rssi snr : Int) (h : TableOk s) :
    RTMAXSIZE (ProcessRoute s now via node seq rssi snr) = RTMAXSIZE s := by
  rw [ProcessRoute_table s now via node seq rssi snr h.1 h.2.1]
  unfold RTMAXSIZE
  simp only
  split_ifs
  · exact List.length_map _ _
  · exact addSlot_length _ _
  · rfl

theorem RTMAXSIZE_runCalls (s : LoraMesher) (calls : List RouteCall) (h : TableOk s) :
    RTMAXSIZE (runCalls s calls) = RTMAXSIZE s := by
  induction calls generalizing s with
  | nil => rfl
  | cons c rest ih =>
    simp only [runCalls]
    rw [ih _ (TableOk_ProcessRoute _ _ _ _ _ _ _ h), RTMAXSIZE_ProcessRoute _ _ _ _ _ _ _ h]

theorem mem_offeredMetrics (calls : List RouteCall) (a m : Nat) :
    m ∈ offeredMetrics calls a ↔ ∃ c ∈ calls, c.node.address = a ∧ c.node.metric = m := by
  simp [offeredMetrics, and_assoc]

theorem mem_offeredAddresses (la : Nat) (calls : List RouteCall) (a : Nat) :
    a ∈ offeredAddresses la calls ↔ (∃ c ∈ calls, c.node.address = a) ∧ a ≠ 0 ∧ a ≠ la := by
  simp [offeredAddresses]

/-- A full table without duplicates holds as many distinct addresses as slots. -/
theorem full_length_le (la : Nat) (calls : List RouteCall) (rt : List routableNode)
    (hfull : full rt) (hd : distinctOccupied rt) (ha : avoids la rt)
    (hsrc : ∀ e ∈ rt, e.networkNode.address ≠ 0 →
      ∃ c ∈ calls, c.node.address = e.networkNode.address) :
    rt.length ≤ (offeredAddresses la calls).length := by
  have hnd : (rt.map (fun e => e.networkNode.address)).Nodup := by
    unfold List.Nodup
    rw [List.pairwise_map]
    exact List.Pairwise.imp_of_mem (fun {e f} he _ hR heq => hR (hfull e he) heq.symm) hd
  have hsub : rt.map (fun e => e.networkNode.address) ⊆ offeredAddresses la calls := by
    intro a hmem
    obtain ⟨e, he, rfl⟩ := List.mem_map.mp hmem
    exact (mem_offeredAddresses la calls _).mpr
      ⟨hsrc e he (hfull e he), hfull e he, ha e he (hfull e he)⟩
  have := (List.subperm_of_subset hnd hsub).length_le
  simpa using this

/-! ## Claims about the routing table -/

/-- C2 (table dedup): starting from a table whose slots all have address 0,
after any finite sequence of `ProcessRoute` calls no two occupied slots hold the
same address and no occupied slot holds the local address. -/
theorem table_dedup (s : LoraMesher) (calls : List RouteCall)
    (hempty : ∀ e ∈ s.routingTable, e.networkNode.address = 0) :
    (∀ (i j : Nat) (hi : i < (runCalls s calls).routingTable.length)
        (hj : j < (runCalls s calls).routingTable.length), i ≠ j →
        ((runCalls s calls).routingTable[i]).networkNode.address ≠ 0 →
        ((runCalls s calls).routingTable[j]).networkNode.address ≠ 0 →
        ((runCalls s calls).routingTable[i]).networkNode.address ≠
          ((runCalls s calls).routingTable[j]).networkNode.address) ∧
    (∀ e ∈ (runCalls s calls).routingTable, e.networkNode.address ≠ 0 →
        e.networkNode.address ≠ s.localAddress) := by
  have hok := TableOk_runCalls s calls (TableOk_of_free s hempty)
  obtain ⟨_, hd, ha⟩ := hok
  refine ⟨?_, ?_⟩
  · intro i j hi hj hij hi0 hj0
    have hpw := List.pairwise_iff_getElem.mp hd
    rcases Nat.lt_or_gt_of_ne hij with hlt | hgt
    · exact fun heq => hpw i j hi hj hlt hi0 heq.symm
    · exact fun heq => hpw j i hj hi hgt hj0 heq
  · rw [runCalls_localAddress] at ha
    exact ha

/-- C2, on the table of node 0x0A after the calls `sampleCalls`. -/
theorem table_dedup_witness :
    (∀ e ∈ nodeA.routingTable, e.networkNode.address = 0) ∧
    (∀ (i j : Nat) (hi : i < (runCalls nodeA sampleCalls).routingTable.length)
        (hj : j < (runCalls nodeA sampleCalls).routingTable.length), i ≠ j →
        ((runCalls nodeA sampleCalls).routingTable[i]).networkNode.address ≠ 0 →
        ((runCalls nodeA sampleCalls).routingTable[j]).networkNode.address ≠ 0 →
        ((runCalls nodeA sampleCalls).routingTable[i]).networkNode.address ≠
          ((runCalls nodeA sampleCalls).routingTable[j]).networkNode.address) ∧
    (∀ e ∈ (runCalls nodeA sampleCalls).routingTable, e.networkNode.address ≠ 0 →
        e.networkNode.address ≠ nodeA.localAddress) :=
  ⟨by decide, table_dedup nodeA sampleCalls (by decide)⟩

/-- C3 (monotone metric): starting from a table whose slots all have address 0,
for every sequence of `ProcessRoute` calls that offers fewer than `RTMAXSIZE`
distinct non-zero, non-local addresses, every address in the table afterwards
has a stored metric equal to the minimum of the metrics offered for it; and
under the hop-count metric every such offered address is in the table. -/
theorem monotone_metric (s : LoraMesher) (calls : List RouteCall)
    (hempty : ∀ e ∈ s.routingTable, e.networkNode.address = 0)
    (hcap : (offeredAddresses s.localAddress calls).length < RTMAXSIZE s) :
    (∀ e ∈ (runCalls s calls).routingTable, e.networkNode.address ≠ 0 →
        (offeredMetrics calls e.networkNode.address).min? = some e.networkNode.metric) ∧
    (s.metricType = MetricType.HOPCOUNT →
      ∀ c ∈ calls, c.node.address ≠ 0 → c.node.address ≠ s.localAddress →
        ∃ e ∈ (runCalls s calls).routingTable, e.networkNode.address = c.node.address) := by
  have hok0 := TableOk_of_free s hempty
  cases hm : s.metricType with
  | RSSISUM =>
    rw [runCalls_rssisum s calls hm]
    exact ⟨fun e he h0 => absurd (hempty e he) h0, fun h => by cases h⟩
  | HOPCOUNT =>
    have ht0 : tracks s.localAddress [] s.routingTable :=
      ⟨fun e he h0 => absurd (hempty e he) h0, fun c hc => by cases hc⟩
    have ht := tracks_runCalls s [] calls hok0 hm ht0
    rw [List.nil_append] at ht
    obtain ⟨hmin, hoff⟩ := ht
    have hok := TableOk_runCalls s calls hok0
    refine ⟨?_, ?_⟩
    · intro e he h0
      obtain ⟨⟨c1, hc1, hc1a, hc1m⟩, hle⟩ := hmin e he h0
      rw [List.min?_eq_some_iff']
      refine ⟨(mem_offeredMetrics _ _ _).mpr ⟨c1, hc1, hc1a, hc1m⟩, ?_⟩
      intro b hb
      obtain ⟨c2, hc2, hc2a, hc2m⟩ := (mem_offeredMetrics _ _ _).mp hb
      rw [← hc2m]
      exact hle c2 hc2 hc2a
    · intro _ c hc h0 hla
      rcases hoff c hc h0 hla with hpr | hfu
      · exact hpr.2
      · exfalso
        have hlen := full_length_le s.localAddress calls _ hfu hok.2.1
          (by rw [← runCalls_localAddress s calls]; exact hok.2.2)
          (fun e he h0 => by
            obtain ⟨⟨c1, hc1, hc1a, _⟩, _⟩ := hmin e he h0
            exact ⟨c1, hc1, hc1a⟩)
        have hcapeq := RTMAXSIZE_runCalls s calls hok0
        unfold RTMAXSIZE at hcapeq hcap
        omega

/-- C3, on the table of node 0x0A after the calls `sampleCalls`. -/
theorem monotone_metric_witness :
    (∀ e ∈ nodeA.routingTable, e.networkNode.address = 0) ∧
    (offeredAddresses nodeA.localAddress sampleCalls).length < RTMAXSIZE nodeA ∧
    (∀ e ∈ (runCalls nodeA sampleCalls).routingTable, e.networkNode.address ≠ 0 →
        (offeredMetrics sampleCalls e.networkNode.address).min? =
          some e.networkNode.metric) ∧
    (nodeA.metricType = MetricType.HOPCOUNT →
      ∀ c ∈ sampleCalls, c.node.address ≠ 0 → c.node.address ≠ nodeA.localAddress →
        ∃ e ∈ (runCalls nodeA sampleCalls).routingTable,
          e.networkNode.address = c.node.address) :=
  ⟨by decide, by decide, monotone_metric nodeA sampleCalls (by decide) (by decide)⟩

/-- C4 (tie-break): in a table reached from the empty table, a `ProcessRoute`
call for an address that is present with stored metric `m` and that offers a
metric not smaller than `m` changes nothing. -/
theorem tie_break (s : LoraMesher) (calls : List RouteCall)
    (hempty : ∀ e ∈ s.routingTable, e.networkNode.address = 0)
    (now via : Nat) (node : networkNode) (seq rssi snr : Int) (e : routableNode)
    (he : e ∈ (runCalls s calls).routingTable) (h0 : e.networkNode.address ≠ 0)
    (ha : e.networkNode.address = node.address)
    (hge : node.metric ≥ e.networkNode.metric) :
    ProcessRoute (runCalls s calls) now via node seq rssi snr = runCalls s calls := by
  have hok := TableOk_runCalls s calls (TableOk_of_free s hempty)
  rw [ProcessRoute_table _ now via node seq rssi snr hok.1 hok.2.1]
  have hk : present node.address (runCalls s calls).routingTable :=
    ⟨by rw [← ha]; exact h0, e, he, ha⟩
  have hmap : (runCalls s calls).routingTable.map (relax node via) =
      (runCalls s calls).routingTable := by
    have : ∀ f ∈ (runCalls s calls).routingTable, relax node via f = f := by
      intro f hf
      by_cases hc : f.networkNode.address ≠ 0 ∧ node.address = f.networkNode.address
      · have hfe : e = f := distinctOccupied_eq _ hok.2.1 e f he hf h0 (ha.trans hc.2)
        subst hfe
        have : ¬ node.metric < e.networkNode.metric := Nat.not_lt.mpr hge
        simp only [relax, hc, this, and_self, if_true, if_false, ne_eq, not_false_eq_true]
      · simp only [relax, hc, if_false]
    calc (runCalls s calls).routingTable.map (relax node via)
        = (runCalls s calls).routingTable.map id := List.map_congr_left this
      _ = (runCalls s calls).routingTable := List.map_id _
  rw [if_pos hk, hmap, ite_self]

/-- C4, the scenario: node 0x0A holds 0x0C via 0x0B with metric 2, and the
record of 0x0C with wire metric 1 in a HELLO from 0x0D is offered as metric 2. -/
theorem tie_break_witness :
    (∀ e ∈ nodeA.routingTable, e.networkNode.address = 0) ∧
    (⟨⟨0x0C, 2⟩, 6, 10000009, 0x0B⟩ : routableNode) ∈
      (runCalls nodeA sampleCalls).routingTable ∧
    ProcessRoute (runCalls nodeA sampleCalls) 12 0x0D ⟨0x0C, 2⟩ 7 (-70) 7 =
      runCalls nodeA sampleCalls ∧
    (receivingRoutine (runCalls nodeA sampleCalls) helloFromD).map (fun s => s.routingTable) =
      some [⟨⟨0x0B, 1⟩, 5, 10000007, 0x0A⟩, ⟨⟨0x0C, 2⟩, 6, 10000009, 0x0B⟩,
        ⟨⟨0x0D, 1⟩, 7, 10000011, 0x0A⟩, emptySlot] :=
  ⟨by decide, by decide,
    tie_break nodeA sampleCalls (by decide) 12 0x0D ⟨0x0C, 2⟩ 7 (-70) 7
      ⟨⟨0x0C, 2⟩, 6, 10000009, 0x0B⟩ (by decide) (by decide) rfl (by decide),
    by decide⟩

/-- C6 (self-route exclusion): `ProcessRoute` called with the local address as
the node address returns the object it was given, whatever the table, the next
hop, the metric, the sequence number and the signal readings. -/
theorem self_route_excluded (s : LoraMesher) (now via metric : Nat) (seq rssi snr : Int) :
    ProcessRoute s now via ⟨s.localAddress, metric⟩ seq rssi snr = s := by
  unfold ProcessRoute
  cases s.metricType <;> simp

/-- C9 (capacity ceiling): when every slot is occupied, `AddNodeToRoutingTable`
changes nothing, `ProcessRoute` for an address that no slot holds changes
nothing, and `routingTableSize()` is `RTMAXSIZE`. -/
theorem capacity_ceiling (s : LoraMesher) (now via : Nat) (node : networkNode)
    (seq rssi snr : Int) (hfull : ∀ e ∈ s.routingTable, e.networkNode.address ≠ 0) :
    AddNodeToRoutingTable s now node via seq = s ∧
    ((∀ e ∈ s.routingTable, e.networkNode.address ≠ node.address) →
      ProcessRoute s now via node seq rssi snr = s ∧
      routingTableSize (ProcessRoute s now via node seq rssi snr) = RTMAXSIZE s) ∧
    routingTableSize s = RTMAXSIZE s ∧
    routingTableSize (AddNodeToRoutingTable s now node via seq) = RTMAXSIZE s := by
  have hadd : AddNodeToRoutingTable s now node via seq = s := by
    unfold AddNodeToRoutingTable
    rw [addSlot_full _ _ hfull]
  have hsize : routingTableSize s = RTMAXSIZE s := countOccupied_full _ hfull
  have hpacked : packed s.routingTable :=
    List.pairwise_of_forall_mem_list (fun a ha _ _ h0 => absurd h0 (hfull a ha))
  refine ⟨hadd, ?_, hsize, by rw [hadd]; exact hsize⟩
  intro habsent
  have hk : ¬ present node.address s.routingTable := fun ⟨_, e, he, hea⟩ => habsent e he hea
  have hproc : ProcessRoute s now via node seq rssi snr = s := by
    rw [ProcessRoute_frame]
    have htab : (ProcessRoute s now via node seq rssi snr).routingTable = s.routingTable := by
      unfold ProcessRoute
      cases s.metricType with
      | RSSISUM => rfl
      | HOPCOUNT =>
        simp only [routingTableSize, scanSlots_packed _ _ _ hpacked, scanAll_absent _ _ _ hk,
          AddNodeToRoutingTable, addSlot_full _ _ hfull]
        split_ifs <;> rfl
    rw [htab]
  exact ⟨hproc, by rw [hproc]; exact hsize⟩

/-- C9, on the full two-slot table of `fullNode` and the unknown address 0x0D. -/
theorem capacity_ceiling_witness :
    (∀ e ∈ fullNode.routingTable, e.networkNode.address ≠ 0) ∧
    (∀ e ∈ fullNode.routingTable, e.networkNode.address ≠ 0x0D) ∧
    AddNodeToRoutingTable fullNode 11 ⟨0x0D, 1⟩ 0x0A 7 = fullNode ∧
    ProcessRoute fullNode 11 0x0A ⟨0x0D, 1⟩ 7 0 0 = fullNode ∧
    routingTableSize (ProcessRoute fullNode 11 0x0A ⟨0x0D, 1⟩ 7 0 0) = 2 :=
  have h := capacity_ceiling fullNode 11 0x0A ⟨0x0D, 1⟩ 7 0 0 (by decide)
  ⟨by decide, by decide, h.1, (h.2.1 (by decide)).1, (h.2.1 (by decide)).2⟩

/-! ## The receive task and HELLO packets -/

theorem scanSlots_keeps (node : networkNode) (via : Nat) (e : routableNode) (n : Nat)
    (rt : List routableNode) (he : e ∈ rt)
    (hc : node.address = e.networkNode.address → ¬ node.metric < e.networkNode.metric) :
    e ∈ (scanSlots node via n rt).2 := by
  induction rt generalizing n with
  | nil => cases he
  | cons x rest ih =>
    cases n with
    | zero => simpa [scanSlots] using he
    | succ m =>
      by_cases hx : x.networkNode.address ≠ 0 ∧ node.address = x.networkNode.address
      · simp only [scanSlots, hx, and_self, if_true, ne_eq, not_false_eq_true]
        rcases List.mem_cons.mp he with he1 | he1
        · subst he1
          rw [if_neg (hc hx.2)]
          exact List.mem_cons_self _ _
        · exact List.mem_cons_of_mem _ he1
      · simp only [scanSlots, hx, if_false]
        rcases List.mem_cons.mp he with he1 | he1
        · subst he1
          exact List.mem_cons_self _ _
        · exact List.mem_cons_of_mem _ (ih m he1)

theorem scanSlots_absent (node : networkNode) (via : Nat) (n : Nat) (rt : List routableNode)
    (h : ∀ e ∈ rt, e.networkNode.address ≠ node.address) :
    scanSlots node via n rt = (false, rt) := by
  induction rt generalizing n with
  | nil => cases n <;> rfl
  | cons x rest ih =>
    cases n with
    | zero => rfl
    | succ m =>
      have hx : ¬ (x.networkNode.address ≠ 0 ∧ node.address = x.networkNode.address) :=
        fun hx => h x (List.mem_cons_self _ _) hx.2.symm
      have hr := ih m (fun e he => h e (List.mem_cons_of_mem _ he))
      simp only [scanSlots, hx, if_false, hr]

/-- An occupied slot survives a `ProcessRoute` call that does not offer its
address a smaller metric. -/
theorem ProcessRoute_keeps (s : LoraMesher) (now via : Nat) (node : networkNode)
    (seq rssi snr : Int) (e : routableNode) (he : e ∈ s.routingTable)
    (h0 : e.networkNode.address ≠ 0)
    (hc : node.address = e.networkNode.address → ¬ node.metric < e.networkNode.metric) :
    e ∈ (ProcessRoute s now via node seq rssi snr).routingTable := by
  unfold ProcessRoute
  cases s.metricType with
  | RSSISUM => exact he
  | HOPCOUNT =>
    have hk := scanSlots_keeps node via e (routingTableSize s) s.routingTable he hc
    simp only [AddNodeToRoutingTable]
    split_ifs
    · exact mem_addSlot_occupied _ _ _ hk h0
    · exact hk
    · exact he

/-- A `ProcessRoute` call for an address that no slot holds, with a free slot
left, stores the new entry. -/
theorem ProcessRoute_inserts (s : LoraMesher) (now via : Nat) (node : networkNode)
    (seq rssi snr : Int) (hm : s.metricType = MetricType.HOPCOUNT)
    (hl : node.address ≠ s.localAddress)
    (hnew : ∀ e ∈ s.routingTable, e.networkNode.address ≠ node.address)
    (hfree : ∃ e ∈ s.routingTable, e.networkNode.address = 0) :
    (⟨node, seq, (now + s.routeTimeout) % WORD, via⟩ : routableNode) ∈
      (ProcessRoute s now via node seq rssi snr).routingTable := by
  have hnf : ¬ full s.routingTable := by
    obtain ⟨e, he, h0⟩ := hfree
    exact fun hf => hf e he h0
  unfold ProcessRoute
  rw [hm]
  simp only [ne_eq, hl, not_false_eq_true, if_true, scanSlots_absent _ _ _ _ hnew,
    AddNodeToRoutingTable]
  exact fresh_mem_addSlot _ _ hnf

theorem GetNumberOfNodes_eq (p : packet) (h1 : 1 ≤ p.payloadSize) (h2 : p.payloadSize ≤ 255) :
    GetNumberOfNodes p = (p.payloadSize - 1) / 3 := by
  unfold GetNumberOfNodes GetPayloadLength sizeofNetworkNode WORD
  have : (p.payloadSize + 2 ^ 32 - 1) % 2 ^ 32 = p.payloadSize - 1 := by omega
  simp only [this]

theorem GetNetworkNodeByPosition_some (p : packet) (i : Nat)
    (h : 3 * i + 3 ≤ p.payload.length) (hw : 3 * i < WORD) :
    ∃ n, GetNetworkNodeByPosition p i = some n := by
  unfold GetNetworkNodeByPosition payloadByte sizeofNetworkNode
  have hoff : i * 3 % WORD = i * 3 := Nat.mod_eq_of_lt (by omega)
  simp only [hoff]
  rw [List.getElem?_eq_getElem (by omega : i * 3 < p.payload.length),
    List.getElem?_eq_getElem (by omega : i * 3 + 1 < p.payload.length),
    List.getElem?_eq_getElem (by omega : i * 3 + 2 < p.payload.length)]
  exact ⟨_, rfl⟩

/-- The record loop returns, and it keeps an occupied slot to which no record
offers a smaller metric. -/
theorem helloRecords_keeps (rx : packet) (seq rssi snr : Int) (micros : Nat → Nat)
    (e : routableNode) (h0 : e.networkNode.address ≠ 0) (k i : Nat) (s : LoraMesher)
    (hlen : 3 * (i + k) ≤ rx.payload.length) (hw : 3 * (i + k) < WORD)
    (he : e ∈ s.routingTable)
    (hrec : ∀ j, i ≤ j → j < i + k → ∀ n, GetNetworkNodeByPosition rx j = some n →
      n.address = e.networkNode.address → ¬ (n.metric + 1) % 256 < e.networkNode.metric) :
    ∃ s2, helloRecords rx seq rssi snr micros k i s = some s2 ∧ e ∈ s2.routingTable := by
  induction k generalizing i s with
  | zero => exact ⟨s, rfl, he⟩
  | succ k ih =>
    obtain ⟨n, hn⟩ := GetNetworkNodeByPosition_some rx i (by omega) (by omega)
    have hkeep := ProcessRoute_keeps s (micros (i + 1)) rx.src
      { n with metric := (n.metric + 1) % 256 } seq rssi snr e he h0
      (fun ha => hrec i (le_refl _) (by omega) n hn ha)
    obtain ⟨s2, hs2, hmem⟩ := ih (i + 1) _ (by omega) (by omega) hkeep
      (fun j hj1 hj2 => hrec j (by omega) (by omega))
    refine ⟨s2, ?_, hmem⟩
    simp only [helloRecords, hn]
    exact hs2

theorem mem_snapshot (rx : packet) (j : Nat) (n : networkNode)
    (hj : j < GetNumberOfNodes rx) (hn : GetNetworkNodeByPosition rx j = some n) :
    n ∈ snapshot rx := by
  unfold snapshot
  exact List.mem_filterMap.mpr ⟨j, List.mem_range.mpr hj, hn⟩

/-- C1 (direct-link route, as the code has it): under the hop-count metric, for
every packet that the receive task was notified of and read (frame length not
0, `readData` returned 0), that is a broadcast HELLO from a neighbour S (S not
0, not the local address) which no slot holds, with a free slot left, whose
one-byte `payloadSize` is at least 1 (the sequence byte) and whose declared
payload lies inside the bytes of the receive buffer, the iteration of the
receive task returns and the table then holds an entry for S with metric 1
whose next hop is the local address, provided no record of the snapshot names
S with wire metric 255. -/
theorem direct_link_route (s : LoraMesher) (ev : Reception)
    (hm : s.metricType = MetricType.HOPCOUNT)
    (hw : ev.TWres = true) (hps : ev.packetSize ≠ 0) (hres : ev.res = 0)
    (hdst : ev.rx.dst = s.broadcastAddress) (htype : ev.rx.type = HELLO_P)
    (h1 : 1 ≤ ev.rx.payloadSize) (h2 : ev.rx.payloadSize ≤ 255)
    (hlen : ev.rx.payloadSize ≤ ev.rx.payload.length)
    (hS0 : ev.rx.src ≠ 0) (hSl : ev.rx.src ≠ s.localAddress)
    (hnew : ∀ e ∈ s.routingTable, e.networkNode.address ≠ ev.rx.src)
    (hfree : ∃ e ∈ s.routingTable, e.networkNode.address = 0)
    (hwrap : ∀ n ∈ snapshot ev.rx, n.address = ev.rx.src → n.metric % 256 ≠ 255) :
    ∃ s2, receivingRoutine s ev = some s2 ∧
      ∃ e ∈ s2.routingTable, e.networkNode = ⟨ev.rx.src, 1⟩ ∧ e.via = s.localAddress := by
  have hidx : (GetPayloadLength ev.rx + WORD - 1) % WORD = ev.rx.payloadSize - 1 := by
    unfold GetPayloadLength WORD; omega
  have hcount := GetNumberOfNodes_eq ev.rx h1 h2
  obtain ⟨b, hb⟩ : ∃ b, payloadByte ev.rx (ev.rx.payloadSize - 1) = some b := by
    unfold payloadByte
    exact ⟨_, List.getElem?_eq_getElem (by omega)⟩
  let s1 : LoraMesher :=
    { s with
      receivedPackets := s.receivedPackets + 1
      radio := s.radio ++ [RadioOp.getPacketLength] ++
        [RadioOp.getRSSI, RadioOp.getSNR, RadioOp.readData] }
  have hins := ProcessRoute_inserts s1 (ev.micros 0) s1.localAddress ⟨ev.rx.src, 1⟩
    (b : Int) ev.rssi ev.snr hm hSl hnew hfree
  obtain ⟨s2, hs2, hmem⟩ := helloRecords_keeps ev.rx (b : Int) ev.rssi ev.snr ev.micros
    _ hS0 (GetNumberOfNodes ev.rx) 0 _ (by rw [hcount]; omega) (by rw [hcount]; unfold WORD; omega)
    hins
    (fun j _ hj n hn ha => by
      have := hwrap n (mem_snapshot ev.rx j n (by omega) hn) ha
      simp only
      omega)
  refine ⟨{ s2 with radio := s2.radio ++ [RadioOp.startReceive] }, ?_,
    _, hmem, rfl, rfl⟩
  unfold receivingRoutine dispatch processHello
  simp only [hw, hps, hres, if_true, if_false, ne_eq, not_true_eq_false, hdst, htype, hidx, hb,
    hm]
  have hs3 : helloRecords ev.rx (b : Int) ev.rssi ev.snr ev.micros (GetNumberOfNodes ev.rx) 0
      (ProcessRoute s1 (ev.micros 0) s.localAddress ⟨ev.rx.src, 1⟩ (b : Int) ev.rssi ev.snr) =
      some s2 := hs2
  simp only [s1, List.append_assoc, hm] at hs3
  simp only [List.append_assoc, hs3]

/-- C1, on the HELLO from 0x0B (sequence number 6, snapshot: 0x0C with wire
metric 1) received by node 0x0A with an empty table. -/
theorem direct_link_route_witness :
    nodeA.metricType = MetricType.HOPCOUNT ∧
    (helloFromBwithC.TWres = true ∧ helloFromBwithC.packetSize ≠ 0 ∧
      helloFromBwithC.res = 0 ∧ helloFromBwithC.rx.dst = nodeA.broadcastAddress ∧
      helloFromBwithC.rx.type = HELLO_P ∧ helloFromBwithC.rx.payloadSize = 4 ∧
      helloFromBwithC.rx.payload.length = 4 ∧ helloFromBwithC.rx.src = 0x0B) ∧
    (∀ e ∈ nodeA.routingTable, e.networkNode.address = 0) ∧
    snapshot helloFromBwithC.rx = [⟨0x0C, 1⟩] ∧
    ∃ s2, receivingRoutine nodeA helloFromBwithC = some s2 ∧
      ∃ e ∈ s2.routingTable, e.networkNode = ⟨helloFromBwithC.rx.src, 1⟩ ∧
        e.via = nodeA.localAddress :=
  ⟨by decide, by decide, by decide, by decide,
    direct_link_route nodeA helloFromBwithC (by decide) (by decide) (by decide) (by decide)
      (by decide) (by decide) (by decide) (by decide) (by decide) (by decide) (by decide)
      (by decide) (by decide) (by decide)⟩

/-- C1 as stated fails: node 0x0A with an empty table receives the HELLO of
0x0B (sequence number 5, empty snapshot); the table then holds 0x0B with metric
1 and next hop 0x0A, and no entry for 0x0B whose next hop is 0x0B. -/
theorem direct_link_via_counterexample :
    (broadcastHello nodeA helloFromB ∧ helloFromB.rx.src = 0x0B ∧
      (∀ e ∈ nodeA.routingTable, e.networkNode.address = 0)) ∧
    (receivingRoutine nodeA helloFromB).map (fun s => s.routingTable) =
      some [⟨⟨0x0B, 1⟩, 5, 10000007, 0x0A⟩, emptySlot, emptySlot, emptySlot] ∧
    ¬ ∃ s2, receivingRoutine nodeA helloFromB = some s2 ∧
      ∃ e ∈ s2.routingTable, e.networkNode.address = 0x0B ∧ e.networkNode.metric = 1 ∧
        e.via = 0x0B := by
  have hrun : (receivingRoutine nodeA helloFromB).map (fun s => s.routingTable) =
      some [⟨⟨0x0B, 1⟩, 5, 10000007, 0x0A⟩, emptySlot, emptySlot, emptySlot] := by decide
  refine ⟨by decide, hrun, ?_⟩
  rintro ⟨s2, hs2, e, he, ha, _, hv⟩
  rw [hs2] at hrun
  simp only [Option.map_some', Option.some.injEq] at hrun
  rw [hrun] at he
  simp only [List.mem_cons, List.mem_singleton, List.not_mem_nil, or_false, or_self] at he
  rcases he with rfl | rfl
  · exact absurd hv (by decide)
  · exact absurd ha (by decide)

/-- C5 at the failing input: node 0x0A with an empty table receives a HELLO of
0x0B whose snapshot is the record of 0x0C with wire metric 255; the metric
offered and stored for 0x0C is 0, not 256.  With wire metric 1 the same HELLO
stores 0x0C with next hop 0x0B and metric 2. -/
theorem relaxation_wraps_at_255 :
    broadcastHello nodeA helloWrap ∧
    snapshot helloWrap.rx = [⟨0x0C, 255⟩] ∧
    (receivingRoutine nodeA helloWrap).map (fun s => s.routingTable) =
      some [⟨⟨0x0B, 1⟩, 6, 10000007, 0x0A⟩, ⟨⟨0x0C, 0⟩, 6, 10000008, 0x0B⟩,
        emptySlot, emptySlot] ∧
    snapshot helloFromBwithC.rx = [⟨0x0C, 1⟩] ∧
    (receivingRoutine nodeA helloFromBwithC).map (fun s => s.routingTable) =
      some [⟨⟨0x0B, 1⟩, 6, 10000008, 0x0A⟩, ⟨⟨0x0C, 2⟩, 6, 10000009, 0x0B⟩,
        emptySlot, emptySlot] := by
  decide

/-! ## The HELLO packet -/

theorem slotBytes_length (l : List routableNode) : (slotBytes l).length = 3 * l.length := by
  induction l with
  | nil => rfl
  | cons e rest ih => simp only [slotBytes, nodeBytes, List.length_append, List.length_cons,
      List.length_nil, ih]; omega

theorem routingBytes_length (s : LoraMesher) :
    (slotBytes (s.routingTable.take (routingTableSize s))).length = 3 * routingTableSize s := by
  rw [slotBytes_length, List.length_take]
  have := countOccupied_le s.routingTable
  unfold routingTableSize
  omega

theorem CreateRoutingPacket_payloadSize (s : LoraMesher) (hT : routingTableSize s ≤ 84) :
    (CreateRoutingPacket s).payloadSize = 3 * routingTableSize s + 1 := by
  unfold CreateRoutingPacket sizeofNetworkNode
  simp only
  omega

/-- In a packed table the occupied slots are the first `routingTableSize()`. -/
theorem filter_packed (rt : List routableNode) (h : packed rt) :
    rt.filter (fun e => e.networkNode.address ≠ 0) = rt.take (countOccupied rt) := by
  induction rt with
  | nil => rfl
  | cons e rest ih =>
    have hp := List.pairwise_cons.mp h
    by_cases he : e.networkNode.address = 0
    · have hall : ∀ f ∈ e :: rest, f.networkNode.address = 0 := by
        intro f hf
        rcases List.mem_cons.mp hf with hf1 | hf1
        · rw [hf1]; exact he
        · exact hp.1 f hf1 he
      rw [countOccupied_free _ hall, List.take_zero, List.filter_eq_nil_iff]
      intro a ha
      simp [hall a ha]
    · simp only [countOccupied, he, ne_eq, not_false_eq_true, if_true, List.take_succ_cons,
        decide_True, List.filter_cons_of_pos, ← ih hp.2]

theorem slotBytes_getElem (l : List routableNode) (tail : List Nat) (i : Nat)
    (e : routableNode) (he : l[i]? = some e) :
    (slotBytes l ++ tail)[i * 3]? = some (e.networkNode.address % 256) ∧
    (slotBytes l ++ tail)[i * 3 + 1]? = some (e.networkNode.address / 256 % 256) ∧
    (slotBytes l ++ tail)[i * 3 + 2]? = some (e.networkNode.metric % 256) := by
  induction l generalizing i with
  | nil => simp at he
  | cons x rest ih =>
    cases i with
    | zero =>
      simp only [List.getElem?_cons_zero, Option.some.injEq] at he
      subst he
      simp [slotBytes, nodeBytes]
    | succ j =>
      simp only [List.getElem?_cons_succ] at he
      have h3 := ih j he
      have e0 : (j + 1) * 3 = (j * 3 + 2) + 1 := by omega
      have e1 : (j + 1) * 3 + 1 = (j * 3 + 1 + 2) + 1 := by omega
      have e2 : (j + 1) * 3 + 2 = (j * 3 + 2 + 2) + 1 := by omega
      simp only [slotBytes, nodeBytes, List.cons_append, List.nil_append]
      refine ⟨?_, ?_, ?_⟩
      · rw [e0]; simp only [List.getElem?_cons_succ]; exact h3.1
      · rw [e1]; simp only [List.getElem?_cons_succ]; exact h3.2.1
      · rw [e2]; simp only [List.getElem?_cons_succ]; exact h3.2.2

theorem typedTable_ProcessRoute (s : LoraMesher) (now via : Nat) (node : networkNode)
    (seq rssi snr : Int) (hok : TableOk s) (ht : typedTable s.routingTable)
    (hn : node.address < 65536 ∧ node.metric < 256) :
    typedTable (ProcessRoute s now via node seq rssi snr).routingTable := by
  rw [ProcessRoute_table s now via node seq rssi snr hok.1 hok.2.1]
  simp only
  split_ifs
  · intro e he h0
    obtain ⟨f, hf, rfl⟩ := List.mem_map.mp he
    rw [relax_address] at h0 ⊢
    have hft := ht f hf h0
    refine ⟨hft.1, ?_⟩
    unfold relax
    split_ifs
    · exact hn.2
    · exact hft.2
    · exact hft.2
  · intro e he h0
    rcases mem_addSlot _ _ _ he with rfl | he
    · exact hn
    · exact ht e he h0
  · exact ht

theorem typedTable_runCalls (s : LoraMesher) (calls : List RouteCall) (hok : TableOk s)
    (ht : typedTable s.routingTable) (hc : typedCalls calls) :
    typedTable (runCalls s calls).routingTable := by
  induction calls generalizing s with
  | nil => exact ht
  | cons c rest ih =>
    exact ih _ (TableOk_ProcessRoute _ _ _ _ _ _ _ hok)
      (typedTable_ProcessRoute _ _ _ _ _ _ _ hok ht (hc c (List.mem_cons_self _ _)))
      (fun d hd => hc d (List.mem_cons_of_mem _ hd))

/-- Decoding the packet of `CreateRoutingPacket` on a packed, well-typed table
of at most 84 occupied slots gives back the records of the occupied slots. -/
theorem decode_CreateRoutingPacket (s : LoraMesher) (hp : packed s.routingTable)
    (ht : typedTable s.routingTable) (hT : routingTableSize s ≤ 84) :
    GetNumberOfNodes (CreateRoutingPacket s) = routingTableSize s ∧
    (tableRecords s).length = routingTableSize s ∧
    ∀ i, i < routingTableSize s →
      GetNetworkNodeByPosition (CreateRoutingPacket s) i = (tableRecords s)[i]? := by
  have hsize := CreateRoutingPacket_payloadSize s hT
  have hle := countOccupied_le s.routingTable
  have hrec : tableRecords s =
      (s.routingTable.take (routingTableSize s)).map (fun e => e.networkNode) := by
    unfold tableRecords routingTableSize
    rw [filter_packed _ hp]
  refine ⟨?_, ?_, ?_⟩
  · rw [GetNumberOfNodes_eq _ (by omega) (by omega), hsize]
    omega
  · rw [hrec, List.length_map, List.length_take]
    unfold routingTableSize
    omega
  · intro i hi
    have hlt : i < (s.routingTable.take (routingTableSize s)).length := by
      rw [List.length_take]
      unfold routingTableSize at hi ⊢
      omega
    obtain ⟨e, he⟩ : ∃ e, (s.routingTable.take (routingTableSize s))[i]? = some e :=
      ⟨_, List.getElem?_eq_getElem hlt⟩
    have hmem : e ∈ s.routingTable :=
      List.mem_of_mem_take (List.getElem?_mem he)
    have hocc : e.networkNode.address ≠ 0 := by
      have hin : e ∈ s.routingTable.filter (fun e => e.networkNode.address ≠ 0) := by
        rw [filter_packed _ hp]
        exact List.getElem?_mem he
      simpa using (List.mem_filter.mp hin).2
    obtain ⟨hta, htm⟩ := ht e hmem hocc
    obtain ⟨h0, h1, h2⟩ := slotBytes_getElem _ [(s.helloCounter % 256).toNat] i e he
    have hoff : i * sizeofNetworkNode % WORD = i * 3 := by
      unfold sizeofNetworkNode WORD; omega
    have hdec : GetNetworkNodeByPosition (CreateRoutingPacket s) i =
        some ⟨e.networkNode.address % 256 + 256 * (e.networkNode.address / 256 % 256),
          e.networkNode.metric % 256⟩ := by
      unfold GetNetworkNodeByPosition payloadByte CreateRoutingPacket
      simp only [hoff, h0, h1, h2]
    rw [hdec, hrec, List.getElem?_map, he, Option.map_some']
    have ha : e.networkNode.address % 256 + 256 * (e.networkNode.address / 256 % 256) =
        e.networkNode.address := by omega
    have hm : e.networkNode.metric % 256 = e.networkNode.metric := by omega
    rw [ha, hm]

/-- C10 (duty-cycle gate, as the code has it): `DataCallback` refuses the send
(nothing is transmitted and `dutyCycleEnd` is unchanged, in fact no member is
written) if and only if `now <= dutyCycleEnd`; a send requested strictly after
the end of the cooldown is accepted and the DATA packet is transmitted. -/
theorem duty_cycle_gate (s : LoraMesher) (c : DataClock) (mem : packet) :
    (c.now ≤ s.dutyCycleEnd → DataCallback s c mem = s) ∧
    (s.dutyCycleEnd < c.now →
      ∃ tx, (DataCallback s c mem).radio =
          s.radio ++ [RadioOp.clearDio0Action, RadioOp.transmit tx (GetPacketLength tx),
            RadioOp.setDio0Action, RadioOp.startReceive] ∧
        tx.type = DATA_P ∧ tx.dst = s.broadcastAddress ∧ tx.src = s.localAddress ∧
        (DataCallback s c mem).dutyCycleEnd =
          (c.millisAfter + timeToNextPacket c / 1000 + 1) % WORD) ∧
    (((DataCallback s c mem).radio = s.radio ∧
        (DataCallback s c mem).dutyCycleEnd = s.dutyCycleEnd) ↔ c.now ≤ s.dutyCycleEnd) := by
  have hrefuse : c.now ≤ s.dutyCycleEnd → DataCallback s c mem = s := by
    intro h
    unfold DataCallback
    rw [if_neg (Nat.not_lt.mpr h)]
  refine ⟨hrefuse, ?_, ?_⟩
  · intro h
    unfold DataCallback sendDataPacket
    rw [if_pos h]
    exact ⟨_, rfl, rfl, rfl, rfl, rfl⟩
  · constructor
    · rintro ⟨hr, _⟩
      by_contra hlt
      have hlt2 : s.dutyCycleEnd < c.now := Nat.lt_of_not_le hlt
      unfold DataCallback sendDataPacket at hr
      rw [if_pos hlt2] at hr
      simp at hr
    · intro h
      rw [hrefuse h]
      exact ⟨rfl, rfl⟩

/-- C10, on node 0x0A whose cooldown ends at 5000 ms: a send requested at
5000 ms is refused, one requested at 5001 ms is transmitted. -/
theorem duty_cycle_gate_witness :
    DataCallback coolingNode clockAtEnd freshBlock = coolingNode ∧
    ∃ tx, (DataCallback coolingNode clockAfterEnd freshBlock).radio =
        coolingNode.radio ++ [RadioOp.clearDio0Action, RadioOp.transmit tx (GetPacketLength tx),
          RadioOp.setDio0Action, RadioOp.startReceive] ∧
      tx.type = DATA_P ∧ tx.dst = coolingNode.broadcastAddress ∧
      tx.src = coolingNode.localAddress ∧
      (DataCallback coolingNode clockAfterEnd freshBlock).dutyCycleEnd =
        (clockAfterEnd.millisAfter + timeToNextPacket clockAfterEnd / 1000 + 1) % WORD :=
  ⟨(duty_cycle_gate coolingNode clockAtEnd freshBlock).1 (by decide),
    (duty_cycle_gate coolingNode clockAfterEnd freshBlock).2.1 (by decide)⟩

/-- C10 as stated fails: a send requested at `now == dutyCycleEnd` (5000 ms) is
refused although `now < dutyCycleEnd` does not hold. -/
theorem duty_cycle_gate_counterexample :
    clockAtEnd.now = coolingNode.dutyCycleEnd ∧
    ¬ (clockAtEnd.now < coolingNode.dutyCycleEnd) ∧
    DataCallback coolingNode clockAtEnd freshBlock = coolingNode ∧
    (DataCallback coolingNode clockAtEnd freshBlock).radio = [] ∧
    (DataCallback coolingNode clockAfterEnd freshBlock).radio ≠ [] := by
  decide

/-- The rollover branch of `DataCallback` multiplies one microsecond less than
the elapsed time. -/
theorem timeToNextPacket_rollover (c : DataClock)
    (h : c.transmissionEnd < c.transmissionStart) (hs : c.transmissionStart < WORD) :
    timeToNextPacket c =
      (99 * ((c.transmissionEnd + WORD - c.transmissionStart - 1) % WORD)) % WORD := by
  unfold timeToNextPacket
  rw [if_pos h]
  have : (0 + WORD - 1 + WORD - c.transmissionStart + c.transmissionEnd) % WORD =
      (c.transmissionEnd + WORD - c.transmissionStart - 1) % WORD := by
    unfold WORD at hs ⊢
    omega
  rw [this]

/-- C11 at a failing input: the transmission starts at 4294967000 and ends at
704 microseconds, 1000 microseconds later across the wrap; the code computes
99 * 999 = 98901, where 99 times the elapsed time, and the other branch for the
same elapsed time, give 99000. -/
theorem rollover_cooldown_off_by_one :
    rolloverClock.transmissionEnd < rolloverClock.transmissionStart ∧
    (rolloverClock.transmissionEnd + WORD - rolloverClock.transmissionStart) % WORD = 1000 ∧
    (plainClock.microsAgain + WORD - plainClock.transmissionStart) % WORD = 1000 ∧
    timeToNextPacket rolloverClock = 98901 ∧
    timeToNextPacket plainClock = 99000 ∧
    timeToNextPacket rolloverClock ≠
      (99 * ((rolloverClock.transmissionEnd + WORD - rolloverClock.transmissionStart) % WORD))
        % WORD := by
  decide

/-! ## Record count, re-arming, framing, local address, expiry -/

/-- C12 at the failing input: for a broadcast HELLO whose `payloadSize` is 0,
`GetNumberOfNodes` is (2^32 - 1) / 3 = 1431655765, the bound `3*n + 1 <= p`
fails, the sequence byte is read at index 2^32 - 1 outside the payload, and the
iteration of the receive task reads outside the buffer.  For `payloadSize`
1..255 the count is `(p - 1) / 3` and `3*n + 1 <= p`. -/
theorem record_count_underflows_at_zero :
    (helloEmpty.TWres = true ∧ helloEmpty.packetSize ≠ 0 ∧ helloEmpty.res = 0 ∧
      helloEmpty.rx.dst = nodeA.broadcastAddress ∧ helloEmpty.rx.type = HELLO_P ∧
      helloEmpty.rx.payloadSize = 0) ∧
    GetNumberOfNodes helloEmpty.rx = 1431655765 ∧
    ¬ (3 * GetNumberOfNodes helloEmpty.rx + 1 ≤ helloEmpty.rx.payloadSize) ∧
    (GetPayloadLength helloEmpty.rx + WORD - 1) % WORD = 4294967295 ∧
    payloadByte helloEmpty.rx ((GetPayloadLength helloEmpty.rx + WORD - 1) % WORD) = none ∧
    receivingRoutine nodeA helloEmpty = none ∧
    (∀ rx : packet, 1 ≤ rx.payloadSize → rx.payloadSize ≤ 255 →
      GetNumberOfNodes rx = (rx.payloadSize - 1) / 3 ∧
      3 * GetNumberOfNodes rx + 1 ≤ rx.payloadSize) := by
  refine ⟨by decide, by decide, by decide, by decide, by decide, by decide, ?_⟩
  intro rx h1 h2
  rw [GetNumberOfNodes_eq rx h1 h2]
  omega

/-- After a read that succeeded, an iteration of the receive task that returns
has called `startReceive` last. -/
theorem receivingRoutine_rearms (s s2 : LoraMesher) (ev : Reception)
    (hw : ev.TWres = true) (hps : ev.packetSize ≠ 0) (hres : ev.res = 0)
    (h : receivingRoutine s ev = some s2) :
    s2.radio.getLast? = some RadioOp.startReceive := by
  unfold receivingRoutine at h
  simp only [hw, hps, hres, if_true, if_false, ne_eq, not_true_eq_false] at h
  split at h
  · cases h
  · simp only [Option.some.injEq] at h
    rw [← h]
    simp

/-- C13 at the failing inputs: after a zero-length frame the only call on the
radio is `getPacketLength`, and after a failed `readData` the calls are
`getPacketLength`, `getRSSI`, `getSNR`, `readData`; `startReceive` is called in
neither iteration.  After a HELLO that was read, `startReceive` is the last
call. -/
theorem no_rearm_on_empty_or_failed_read :
    (receivingRoutine nodeA emptyFrame).map (fun s => s.radio) =
      some [RadioOp.getPacketLength] ∧
    (receivingRoutine nodeA failedRead).map (fun s => s.radio) =
      some [RadioOp.getPacketLength, RadioOp.getRSSI, RadioOp.getSNR, RadioOp.readData] ∧
    (receivingRoutine nodeA helloFromB).map (fun s => s.radio) =
      some [RadioOp.getPacketLength, RadioOp.getRSSI, RadioOp.getSNR, RadioOp.readData,
        RadioOp.startReceive] ∧
    (∀ (s : LoraMesher) (ev : Reception), ev.TWres = true → ev.packetSize = 0 →
      receivingRoutine s ev = some { s with radio := s.radio ++ [RadioOp.getPacketLength] }) ∧
    (∀ (s : LoraMesher) (ev : Reception), ev.TWres = true → ev.packetSize ≠ 0 → ev.res ≠ 0 →
      receivingRoutine s ev = some { s with
        receivedPackets := s.receivedPackets + 1
        radio := s.radio ++ [RadioOp.getPacketLength] ++
          [RadioOp.getRSSI, RadioOp.getSNR, RadioOp.readData] }) := by
  refine ⟨by decide, by decide, by decide, ?_, ?_⟩
  · intro s ev hw hps
    unfold receivingRoutine
    simp only [hw, hps, if_true]
  · intro s ev hw hps hres
    unfold receivingRoutine
    simp only [hw, hps, hres, if_true, if_false, ne_eq, not_false_eq_true]

/-- C14 (frame length): for every payload of length n, n at most 255, the
packet of `CreatePacket(payload, n)` has `payloadSize == n`, the input bytes as
payload, type 3 and `GetPacketLength == 6 + n`; and for every packet (whose
`payloadSize` is a byte) `GetPacketLength(p) == 6 + GetPayloadLength(p)`. -/
theorem frame_length (mem : packet) (payload : List Nat) (n : Nat) (q : packet)
    (hn : n ≤ 255) (hlen : payload.length = n) (hq : q.payloadSize ≤ 255) :
    (CreatePacket mem payload n).payloadSize = n ∧
    (CreatePacket mem payload n).payload = payload ∧
    (CreatePacket mem payload n).payload = payload.take n ∧
    (CreatePacket mem payload n).type = 3 ∧
    GetPacketLength (CreatePacket mem payload n) = 6 + n ∧
    GetPacketLength q = 6 + GetPayloadLength q := by
  refine ⟨rfl, ?_, rfl, rfl, ?_, ?_⟩
  · unfold CreatePacket
    simp only
    rw [← hlen, List.take_length]
  · unfold GetPacketLength CreatePacket sizeofPacket WORD
    simp only
    omega
  · unfold GetPacketLength GetPayloadLength sizeofPacket WORD
    omega

/-- C14, on the 30-byte payload of `sendDataPacket` with data counter 7, and on
the HELLO of node 0x0A after the calls `sampleCalls`. -/
theorem frame_length_witness :
    (30 ≤ 255 ∧ (dataPayload 7).length = 30 ∧
      (CreateRoutingPacket (runCalls nodeA sampleCalls)).payloadSize ≤ 255) ∧
    (CreatePacket freshBlock (dataPayload 7) 30).payloadSize = 30 ∧
    (CreatePacket freshBlock (dataPayload 7) 30).payload = dataPayload 7 ∧
    (CreatePacket freshBlock (dataPayload 7) 30).payload = (dataPayload 7).take 30 ∧
    (CreatePacket freshBlock (dataPayload 7) 30).type = 3 ∧
    GetPacketLength (CreatePacket freshBlock (dataPayload 7) 30) = 6 + 30 ∧
    GetPacketLength (CreateRoutingPacket (runCalls nodeA sampleCalls)) =
      6 + GetPayloadLength (CreateRoutingPacket (runCalls nodeA sampleCalls)) :=
  ⟨by decide,
    frame_length freshBlock (dataPayload 7) 30 (CreateRoutingPacket (runCalls nodeA sampleCalls))
      (by decide) (by decide) (by decide)⟩

/-- C15 at the failing input: with the hardware address bytes 0x12 and 0x34 the
local address is 0x1234, the value the dispatcher compares destinations
against and the source of the HELLO, and `getLocalAddress()` returns 0x34.  For
every object `getLocalAddress()` is the local address modulo 256. -/
theorem getLocalAddress_truncates :
    (initializeLocalAddress nodeA sampleMAC).localAddress = 0x1234 ∧
    (CreateRoutingPacket (initializeLocalAddress nodeA sampleMAC)).src = 0x1234 ∧
    getLocalAddress (initializeLocalAddress nodeA sampleMAC) = 0x34 ∧
    getLocalAddress (initializeLocalAddress nodeA sampleMAC) ≠
      (initializeLocalAddress nodeA sampleMAC).localAddress ∧
    (∀ s : LoraMesher, getLocalAddress s = s.localAddress % 256) := by
  refine ⟨by decide, by decide, by decide, by decide, fun s => rfl⟩

/-- C16 at the failing input: node 0x0A holds 0x0C via 0x0B with metric 2,
stamped with expiry 10000009; `ProcessRoute` at clock reading 500000000 for
0x0C via 0x0D with metric 1 replaces metric and next hop and leaves the expiry
10000009 (and the sequence number), where `now + routeTimeout` is 510000000.
The insertion of 0x0D at the same clock reading is stamped 510000000. -/
theorem update_keeps_old_expiry :
    (runCalls nodeA sampleCalls).routingTable =
      [⟨⟨0x0B, 1⟩, 5, 10000007, 0x0A⟩, ⟨⟨0x0C, 2⟩, 6, 10000009, 0x0B⟩, emptySlot, emptySlot] ∧
    (ProcessRoute (runCalls nodeA sampleCalls) 500000000 0x0D ⟨0x0C, 1⟩ 9 0 0).routingTable =
      [⟨⟨0x0B, 1⟩, 5, 10000007, 0x0A⟩, ⟨⟨0x0C, 1⟩, 6, 10000009, 0x0D⟩, emptySlot, emptySlot] ∧
    (500000000 + (runCalls nodeA sampleCalls).routeTimeout) % WORD = 510000000 ∧
    (ProcessRoute (runCalls nodeA sampleCalls) 500000000 0x0A ⟨0x0D, 1⟩ 9 0 0).routingTable =
      [⟨⟨0x0B, 1⟩, 5, 10000007, 0x0A⟩, ⟨⟨0x0C, 2⟩, 6, 10000009, 0x0B⟩,
        ⟨⟨0x0D, 1⟩, 9, 510000000, 0x0A⟩, emptySlot] := by
  decide

/-- C17 (only broadcast HELLOs change routes): for every packet that was read
and whose destination is not the broadcast address, or whose type is not
HELLO, the iteration of the receive task returns and leaves the routing table
as it was. -/
theorem only_broadcast_hello_changes_routes (s : LoraMesher) (ev : Reception)
    (hw : ev.TWres = true) (hps : ev.packetSize ≠ 0) (hres : ev.res = 0)
    (h : ev.rx.dst ≠ s.broadcastAddress ∨ ev.rx.type ≠ HELLO_P) :
    ∃ s2, receivingRoutine s ev = some s2 ∧ s2.routingTable = s.routingTable := by
  have hd : ∀ s1 : LoraMesher, s1.broadcastAddress = s.broadcastAddress →
      dispatch s1 ev = some s1 := by
    intro s1 hb
    unfold dispatch
    rw [hb]
    rcases h with h | h
    · rw [if_neg h]
      split_ifs <;> rfl
    · rw [if_neg h]
      split_ifs <;> rfl
  have hrun : receivingRoutine s ev = some { s with
      receivedPackets := s.receivedPackets + 1
      radio := s.radio ++ [RadioOp.getPacketLength] ++
        [RadioOp.getRSSI, RadioOp.getSNR, RadioOp.readData] ++ [RadioOp.startReceive] } := by
    unfold receivingRoutine
    simp only [hw, hps, hres, if_true, if_false, ne_eq, not_true_eq_false]
    rw [hd]
    rfl
  exact ⟨_, hrun, rfl⟩

/-- C17, on a DATA packet and on a HELLO, both addressed to node 0x0A, received
with the table reached by the calls `sampleCalls`. -/
theorem only_broadcast_hello_changes_routes_witness :
    (dataToMe.TWres = true ∧ dataToMe.packetSize ≠ 0 ∧ dataToMe.res = 0 ∧
      dataToMe.rx.type ≠ HELLO_P ∧ helloToMe.rx.type = HELLO_P ∧
      helloToMe.rx.dst ≠ (runCalls nodeA sampleCalls).broadcastAddress) ∧
    (∃ s2, receivingRoutine (runCalls nodeA sampleCalls) dataToMe = some s2 ∧
      s2.routingTable = (runCalls nodeA sampleCalls).routingTable) ∧
    (∃ s2, receivingRoutine (runCalls nodeA sampleCalls) helloToMe = some s2 ∧
      s2.routingTable = (runCalls nodeA sampleCalls).routingTable) :=
  ⟨by decide,
    only_broadcast_hello_changes_routes (runCalls nodeA sampleCalls) dataToMe
      (by decide) (by decide) (by decide) (Or.inr (by decide)),
    only_broadcast_hello_changes_routes (runCalls nodeA sampleCalls) helloToMe
      (by decide) (by decide) (by decide) (Or.inl (by decide))⟩

/-! ## Occupied slots come first -/

/-- In a packed table the slot at index `i` is occupied exactly when `i` is
below the number of occupied slots. -/
theorem packed_index (rt : List routableNode) (h : packed rt) (i : Nat) (e : routableNode)
    (he : rt[i]? = some e) : e.networkNode.address ≠ 0 ↔ i < countOccupied rt := by
  induction rt generalizing i with
  | nil => simp at he
  | cons x rest ih =>
    have hp := List.pairwise_cons.mp h
    by_cases hx : x.networkNode.address = 0
    · have hall : ∀ f ∈ x :: rest, f.networkNode.address = 0 := by
        intro f hf
        rcases List.mem_cons.mp hf with hf1 | hf1
        · rw [hf1]; exact hx
        · exact hp.1 f hf1 hx
      rw [countOccupied_free _ hall]
      have he0 : e.networkNode.address = 0 := hall e (List.getElem?_mem he)
      simp [he0]
    · have hc : countOccupied (x :: rest) = countOccupied rest + 1 := by
        simp [countOccupied, hx]
      rw [hc]
      cases i with
      | zero =>
        simp only [List.getElem?_cons_zero, Option.some.injEq] at he
        subst he
        simp [hx]
      | succ j =>
        simp only [List.getElem?_cons_succ] at he
        rw [ih hp.2 j he]
        omega

/-- C18 (occupied slots first): starting from a table whose slots all have
address 0, after any finite sequence of `ProcessRoute` calls (calls for the
sentinel address 0 included) the slot at index `i` is occupied exactly when
`i < routingTableSize()`; so the first `routingTableSize()` slots, which the
search of `ProcessRoute` and `CreateRoutingPacket` scan, are the occupied
slots, and the bounded search is the search over the whole table. -/
theorem occupied_slots_first (s : LoraMesher) (calls : List RouteCall)
    (hempty : ∀ e ∈ s.routingTable, e.networkNode.address = 0) :
    (∀ (i : Nat) (hi : i < (runCalls s calls).routingTable.length),
      ((runCalls s calls).routingTable[i]).networkNode.address ≠ 0 ↔
        i < routingTableSize (runCalls s calls)) ∧
    (runCalls s calls).routingTable.take (routingTableSize (runCalls s calls)) =
      (runCalls s calls).routingTable.filter (fun e => e.networkNode.address ≠ 0) ∧
    (∀ (node : networkNode) (via : Nat),
      scanSlots node via (routingTableSize (runCalls s calls)) (runCalls s calls).routingTable =
        scanAll node via (runCalls s calls).routingTable) := by
  have hp := (TableOk_runCalls s calls (TableOk_of_free s hempty)).1
  refine ⟨?_, ?_, ?_⟩
  · intro i hi
    exact packed_index _ hp i _ (List.getElem?_eq_getElem hi)
  · unfold routingTableSize
    rw [filter_packed _ hp]
  · intro node via
    exact scanSlots_packed node via _ hp

/-- C18, on node 0x0A after the calls `sentinelCalls`, two of which offer the
sentinel address 0. -/
theorem occupied_slots_first_witness :
    (∀ e ∈ nodeA.routingTable, e.networkNode.address = 0) ∧
    routingTableSize (runCalls nodeA sentinelCalls) = 2 ∧
    (∀ (i : Nat) (hi : i < (runCalls nodeA sentinelCalls).routingTable.length),
      ((runCalls nodeA sentinelCalls).routingTable[i]).networkNode.address ≠ 0 ↔
        i < routingTableSize (runCalls nodeA sentinelCalls)) ∧
    (runCalls nodeA sentinelCalls).routingTable.take
        (routingTableSize (runCalls nodeA sentinelCalls)) =
      (runCalls nodeA sentinelCalls).routingTable.filter
        (fun e => e.networkNode.address ≠ 0) ∧
    (∀ (node : networkNode) (via : Nat),
      scanSlots node via (routingTableSize (runCalls nodeA sentinelCalls))
          (runCalls nodeA sentinelCalls).routingTable =
        scanAll node via (runCalls nodeA sentinelCalls).routingTable) :=
  ⟨by decide, by decide, occupied_slots_first nodeA sentinelCalls (by decide)⟩

end LoraMesher

